import Mathlib

/-!
Shallow embedding of the IOManager core of this repository
(`src/lib/iomgr.cpp`, `src/include/io_thread.hpp`,
`src/include/aio_drive_interface.hpp`) together with theorems checking the
natural-language specification against it.

Conventions of the embedding:
* machine integers are modelled as `Int` (signed C ints, `int64_t` atomic
  counters) or `Nat` (`size_t`, `uint64_t`) with explicit bound constants
  where overflow/sentinel values matter;
* the mutable `IOManager` singleton becomes a record `IOManager`, member
  functions become pure functions `IOManager → ... → IOManager`;
* `std::map` becomes an association list with `std::map::insert`'s
  insert-if-absent semantics;
* opaque runtime entities (callbacks, cookies, interfaces, thread handles)
  become `Nat` identities;
* code of the repository whose definition is not part of `src/`
  (`iomgr.hpp`, `io_thread.cpp`, `aio_drive_interface.cpp`) is modelled
  from the specification; every such definition carries a doc comment
  starting with `Modelled from the spec:`.
-/

namespace iomgr

/-- Lifecycle states of the manager.  The enumeration is declared in
`iomgr.hpp` (not part of `src/`); the constructors and their strict
progression `waiting_for_interfaces → waiting_for_threads → running →
stopping → stopped` are exactly the ones used by `iomgr.cpp` and stated by
the spec. -/
inductive iomgr_state
  | waiting_for_interfaces
  | waiting_for_threads
  | running
  | stopping
  | stopped
deriving DecidableEq, Repr

/-- Position of a state along the progression
`waiting_for_interfaces → waiting_for_threads → running → stopping → stopped`. -/
def stateRank : iomgr_state → Nat
  | .waiting_for_interfaces => 0
  | .waiting_for_threads => 1
  | .running => 2
  | .stopping => 3
  | .stopped => 4

/-- Message tags.  `iomgr_msg.hpp` is not part of `src/`; the constructors
are the ones used by `iomgr.cpp` (RESCHEDULE, RUN_METHOD,
RELINQUISH_IO_THREAD) plus WAKEUP, Modelled from the spec: "Tagged value
passed between threads: {RESCHEDULE, RUN_METHOD, RELINQUISH_IO_THREAD,
WAKEUP}". -/
inductive iomgr_msg_type
  | RESCHEDULE
  | RUN_METHOD
  | RELINQUISH_IO_THREAD
  | WAKEUP
deriving DecidableEq, Repr

/-- A cross-thread message: tag, optional carried descriptor (identified by
its raw fd), event mask, opaque payload identity (RUN_METHOD thunk). -/
structure iomgr_msg where
  m_type : iomgr_msg_type
  m_fd : Option Int
  m_event : Int
  m_payload : Option Nat
deriving DecidableEq, Repr

/-- `constexpr size_t MAX_PRI = 10` from `io_thread.hpp:23`. -/
def MAX_PRI : Nat := 10

/-- Descriptor record, `struct fd_info`.  The struct itself is declared in
`iomgr.hpp` (not part of `src/`); its fields are exactly the ones written
by `IOManager::create_fd_info` (iomgr.cpp:279-293): callback (opaque
identity), two per-direction `is_processing` flags, raw fd, event mask,
`is_global`, priority, cookie (opaque identity), owning interface (opaque
identity). -/
structure fd_info where
  cb : Nat
  is_processing_read : Bool
  is_processing_write : Bool
  fd : Int
  ev : Int
  is_global : Bool
  pri : Int
  cookie : Nat
  io_interface : Nat
deriving DecidableEq, Repr

/-- Per-thread reactor context (`io_thread.hpp:65-111`).  The epoll set is
modelled as the list `m_fds` of attached records, the message eventfd
counter as `m_tokens`. -/
structure ioMgrThreadContext where
  m_thread_num : Int
  m_msg_fd_info : Option fd_info
  m_count : Nat
  m_is_io_thread : Bool
  m_is_iomgr_thread : Bool
  m_keep_running : Bool
  m_fd_selector : Option (fd_info → Bool)
  m_msg_q : List iomgr_msg
  m_fds : List fd_info
  m_tokens : Nat

/-- The global coordinator.  Fields are the members of `IOManager`
(declared in `iomgr.hpp`, used throughout `iomgr.cpp`): state, expected
interface count, the two latch counters (signed atomic counters), the
interface and drive registries (opaque interface identities), the global
descriptor map, the registry of per-thread contexts (`m_thread_ctx`
accessed via `access_all_threads`), the manager-spawned thread handles
(recorded by the `is_iomgr_thread` flag each was spawned with), and the
global timer. -/
structure IOManager where
  m_state : iomgr_state
  m_expected_ifaces : Nat
  m_yet_to_start_nthreads : Int
  m_yet_to_stop_nthreads : Int
  m_iface_list : List Nat
  m_drive_ifaces : List Nat
  m_fd_info_map : List (Int × fd_info)
  m_threads : List ioMgrThreadContext
  m_iomgr_threads : List Bool
  m_global_timer : Option Unit

/-- Modelled from the spec: the single in-built interface
(`DefaultIOInterface`) registered by `start()`; `iomgr.hpp` (which defines
`inbuilt_interface_count`) is not part of `src/`, but `stop()` resets
`m_expected_ifaces` to it and `start()` registers exactly one in-built
interface. -/
def inbuilt_interface_count : Nat := 1

/-- Largest `uint64_t` value, the initial sentinel of
`find_least_busy_thread_id` (`UINTMAX_MAX`, iomgr.cpp:239). -/
def UINTMAX_MAX : Nat := 2 ^ 64 - 1

/-- Lookup in the global descriptor map (`std::map::find`). -/
def mapFind (m : List (Int × fd_info)) (k : Int) : Option fd_info :=
  match m with
  | [] => none
  | p :: rest => if p.1 = k then some p.2 else mapFind rest k

/-- Key-membership in the global descriptor map. -/
def mapContains (m : List (Int × fd_info)) (k : Int) : Bool :=
  (mapFind m k).isSome

/-- `std::map::insert`: inserts only when the key is absent. -/
def mapInsert (m : List (Int × fd_info)) (k : Int) (v : fd_info) :
    List (Int × fd_info) :=
  if mapContains m k then m else m ++ [(k, v)]

/-- `std::map::erase` by key. -/
def mapErase (m : List (Int × fd_info)) (k : Int) : List (Int × fd_info) :=
  m.filter (fun p => decide (p.1 ≠ k))

/-- `IOManager::create_fd_info` (iomgr.cpp:279-293): builds a record from
the caller's arguments; note that `is_global` is initialized `false` and
`pri` is stored unvalidated. -/
def create_fd_info (iface : Nat) (fd : Int) (cb : Nat) (ev : Int) (pri : Int)
    (cookie : Nat) : fd_info :=
  { cb := cb
    is_processing_read := false
    is_processing_write := false
    fd := fd
    ev := ev
    is_global := false
    pri := pri
    cookie := cookie
    io_interface := iface }

/-- `IOManager::fd_to_info` (iomgr.cpp:295-301): looks the fd up in the
global map and dereferences the result.  The code does not check
`find`'s result against `end()` before dereferencing (it only asserts
`it->first == fd`), so an absent key has no defined result; the fallible
lookup is modelled with `Option`, `none` standing for the undefined case. -/
def fd_to_info (s : IOManager) (fd : Int) : Option fd_info :=
  mapFind s.m_fd_info_map fd

/-- `IOManager::fd_reschedule(int fd, uint32_t event)` (iomgr.cpp:180):
resolves the raw fd through `fd_to_info` and wraps the record and the event
mask into a RESCHEDULE message (iomgr.cpp:182-185); the message is then
handed to `send_to_least_busy_thread`.  Undefined (`none`) exactly when the
`fd_to_info` lookup is. -/
def fd_reschedule_raw (s : IOManager) (fd : Int) (event : Int) :
    Option iomgr_msg :=
  (fd_to_info s fd).map (fun info =>
    { m_type := iomgr_msg_type.RESCHEDULE
      m_fd := some info.fd
      m_event := event
      m_payload := none })

/-- Well-formedness of the global descriptor map: every entry is keyed by
the stored record's fd.  `_add_fd` (iomgr.cpp:157) only ever inserts
`(fd, finfo)` with `finfo->fd = fd`. -/
def mapWF (s : IOManager) : Prop :=
  ∀ p ∈ s.m_fd_info_map, p.2.fd = p.1

/-- Successful `mapFind` lookups come from entries of the list. -/
theorem mapFind_mem {m : List (Int × fd_info)} {k : Int} {i : fd_info}
    (h : mapFind m k = some i) : (k, i) ∈ m := by
  induction m with
  | nil => simp [mapFind] at h
  | cons p rest ih =>
    rw [mapFind] at h
    by_cases hk : p.1 = k
    · rw [if_pos hk] at h
      injection h with h2
      subst h2
      subst hk
      exact List.mem_cons_self _ _
    · rw [if_neg hk] at h
      exact List.mem_cons_of_mem _ (ih h)

/-- A sample one-descriptor manager used by concrete witnesses. -/
def sampleMgr : IOManager :=
  { m_state := iomgr_state.running
    m_expected_ifaces := 1
    m_yet_to_start_nthreads := 0
    m_yet_to_stop_nthreads := 0
    m_iface_list := [0]
    m_drive_ifaces := []
    m_fd_info_map := [((3 : Int), create_fd_info 0 3 0 0 9 0)]
    m_threads := []
    m_iomgr_threads := []
    m_global_timer := none }

/-- C10: `fd_to_info` (and hence raw-fd `fd_reschedule`) is defined exactly
on fds present in the global descriptor map: on a present key it returns
the mapped record, whose fd matches the key (the assert at iomgr.cpp:297);
on an absent key there is no defined result (`none`), and the raw-fd
`fd_reschedule` is likewise undefined. -/
theorem fd_to_info_requires_mapped_fd (s : IOManager) (fd : Int)
    (hwf : mapWF s) :
    (∀ i, mapFind s.m_fd_info_map fd = some i →
        fd_to_info s fd = some i ∧ i.fd = fd) ∧
    (mapFind s.m_fd_info_map fd = none → fd_to_info s fd = none) ∧
    ((fd_reschedule_raw s fd 0).isSome ↔ (mapFind s.m_fd_info_map fd).isSome) := by
  refine ⟨?_, ?_, ?_⟩
  · intro i hi
    exact ⟨hi, hwf (fd, i) (mapFind_mem hi)⟩
  · intro h
    simp [fd_to_info, h]
  · simp [fd_reschedule_raw, fd_to_info]

/-- Witness for C10 at a concrete one-entry map. -/
theorem fd_to_info_requires_mapped_fd_witness :
    (∀ i, mapFind sampleMgr.m_fd_info_map 3 = some i →
        fd_to_info sampleMgr 3 = some i ∧ i.fd = 3) ∧
    (mapFind sampleMgr.m_fd_info_map 3 = none → fd_to_info sampleMgr 3 = none) ∧
    ((fd_reschedule_raw sampleMgr 3 0).isSome ↔
      (mapFind sampleMgr.m_fd_info_map 3).isSome) :=
  fd_to_info_requires_mapped_fd sampleMgr 3
    (by intro p hp; simp [sampleMgr] at hp; subst hp; rfl)

/-- C9 counterexample: the claim states every record created via
`add_fd`/`create_fd_info` has priority in `[0, 10)`, but `create_fd_info`
stores the caller-supplied priority unvalidated: called with `pri = 10`
it produces a record whose priority is `10`, outside `[0, 10)`. -/
theorem create_fd_info_pri_out_of_range :
    (create_fd_info 0 3 0 0 10 0).pri = 10 ∧
      ¬ ((0 : Int) ≤ (create_fd_info 0 3 0 0 10 0).pri ∧
         (create_fd_info 0 3 0 0 10 0).pri < (MAX_PRI : Int)) := by
  constructor
  · rfl
  · intro h
    have := h.2
    simp [create_fd_info, MAX_PRI] at this

/-- C9 amended: `create_fd_info` stores the caller-supplied priority
unchanged, so every record created with a priority argument inside
`[0, MAX_PRI)` — as the repository's callers do (the drive interface's
`add_fd` defaults to priority 9) — carries a priority inside `[0, MAX_PRI)`;
out-of-range arguments are stored unvalidated. -/
theorem create_fd_info_pri_in_range (iface : Nat) (fd : Int) (cb : Nat)
    (ev : Int) (pri : Int) (cookie : Nat) :
    (create_fd_info iface fd cb ev pri cookie).pri = pri ∧
    (0 ≤ pri → pri < (MAX_PRI : Int) →
      0 ≤ (create_fd_info iface fd cb ev pri cookie).pri ∧
      (create_fd_info iface fd cb ev pri cookie).pri < (MAX_PRI : Int)) := by
  exact ⟨rfl, fun h1 h2 => ⟨h1, h2⟩⟩

/-- Witness for the amended C9 at the drive interface's default priority 9. -/
theorem create_fd_info_pri_in_range_witness :
    (create_fd_info 0 3 0 0 9 0).pri = 9 ∧
    (0 ≤ (9 : Int) → (9 : Int) < (MAX_PRI : Int) →
      0 ≤ (create_fd_info 0 3 0 0 9 0).pri ∧
      (create_fd_info 0 3 0 0 9 0).pri < (MAX_PRI : Int)) :=
  create_fd_info_pri_in_range 0 3 0 0 9 0

/-- Modelled from the spec: `ioMgrThreadContext::is_fd_addable` lives in
`io_thread.cpp`, which is not part of `src/`.  The spec describes the
per-thread "optional descriptor selector predicate" and says descriptors
are attached to "every io thread that accepts it (via its selector)"; with
no selector installed every descriptor is accepted. -/
def is_fd_addable (ctx : ioMgrThreadContext) (info : fd_info) : Bool :=
  match ctx.m_fd_selector with
  | none => true
  | some sel => sel info

/-- Modelled from the spec: `ioMgrThreadContext::add_fd_to_thread`
(io_thread.cpp, not part of `src/`) "adds to the multiplexer with the
requested event mask"; the thread's multiplexer set is the list `m_fds`. -/
def add_fd_to_thread (ctx : ioMgrThreadContext) (info : fd_info) :
    ioMgrThreadContext :=
  { ctx with m_fds := ctx.m_fds ++ [info] }

/-- Modelled from the spec: `ioMgrThreadContext::remove_fd_from_thread`
(io_thread.cpp, not part of `src/`) "removes from the multiplexer"; the
multiplexer identifies a registration by its raw fd. -/
def remove_fd_from_thread (ctx : ioMgrThreadContext) (info : fd_info) :
    ioMgrThreadContext :=
  { ctx with m_fds := ctx.m_fds.filter (fun r => decide (r.fd ≠ info.fd)) }

/-- Applies `f` to the element at position `n`, leaving the rest unchanged
(the effect of a mutation through the calling thread's own context
pointer, the context being identified by its position in the registry). -/
def updateAt {α : Type} : List α → Nat → (α → α) → List α
  | [], _, _ => []
  | x :: xs, 0, f => f x :: xs
  | x :: xs, Nat.succ n, f => x :: updateAt xs n f

theorem updateAt_length {α : Type} (l : List α) (n : Nat) (f : α → α) :
    (updateAt l n f).length = l.length := by
  induction l generalizing n with
  | nil => rfl
  | cons x xs ih =>
    cases n with
    | zero => rfl
    | succ n => simp [updateAt, ih]

theorem updateAt_getElem {α : Type} (l : List α) (n : Nat) (f : α → α)
    (j : Nat) (h : j < l.length) (h2 : j < (updateAt l n f).length) :
    (updateAt l n f)[j] = if j = n then f l[j] else l[j] := by
  induction l generalizing n j with
  | nil => exact absurd h (by simp)
  | cons x xs ih =>
    cases n with
    | zero =>
      cases j with
      | zero => simp [updateAt]
      | succ j => simp [updateAt]
    | succ n =>
      cases j with
      | zero => simp [updateAt]
      | succ j =>
        have h' : j < xs.length := Nat.lt_of_succ_lt_succ (by simpa using h)
        have h2' : j < (updateAt xs n f).length := by
          rw [updateAt_length]
          exact h'
        simp only [updateAt, List.getElem_cons_succ]
        rw [ih n j h' h2']
        simp

/-- `IOManager::_add_fd` (iomgr.cpp:135-160).  The state wait for global
descriptors is a separate concern (`add_fd_waits`); this is the body that
runs once it proceeds.  `callerIdx` identifies the calling thread's
context (`m_thread_ctx->`) within the registry. -/
def _add_fd (s : IOManager) (callerIdx : Nat) (iface : Nat) (fd : Int)
    (cb : Nat) (iomgr_ev : Int) (pri : Int) (cookie : Nat)
    (is_per_thread_fd : Bool) : IOManager × fd_info :=
  match is_per_thread_fd with
  | true =>
    let finfo :=
      { create_fd_info iface fd cb iomgr_ev pri cookie with is_global := false }
    ({ s with
        m_threads := updateAt s.m_threads callerIdx (fun ctx =>
          if is_fd_addable ctx finfo then add_fd_to_thread ctx finfo
          else ctx) },
      finfo)
  | false =>
    let finfo :=
      { create_fd_info iface fd cb iomgr_ev pri cookie with is_global := true }
    ({ s with
        m_threads := s.m_threads.map (fun ctx =>
          if ctx.m_is_io_thread && is_fd_addable ctx finfo then
            add_fd_to_thread ctx finfo
          else ctx),
        m_fd_info_map := mapInsert s.m_fd_info_map fd finfo },
      finfo)

/-- The wait condition at the top of `_add_fd` (iomgr.cpp:139-143): a
global registration waits (`wait_to_be_ready`) until the state is
`running`; a per-thread registration never waits. -/
def add_fd_waits (s : IOManager) (is_per_thread_fd : Bool) : Bool :=
  !is_per_thread_fd && decide (s.m_state ≠ iomgr_state.running)

/-- `IOManager::remove_fd` (iomgr.cpp:162-178). -/
def remove_fd (s : IOManager) (info : fd_info) (iomgr_ctx : Option Nat)
    (callerIdx : Nat) : IOManager :=
  if s.m_state ≠ iomgr_state.running ∧ s.m_state ≠ iomgr_state.stopping then
    s
  else if info.is_global then
    let ts := s.m_threads.map (fun ctx =>
      if ctx.m_is_io_thread then remove_fd_from_thread ctx info else ctx)
    { s with m_threads := ts,
             m_fd_info_map := mapErase s.m_fd_info_map info.fd }
  else
    let ts := updateAt s.m_threads (iomgr_ctx.getD callerIdx)
      (fun ctx => remove_fd_from_thread ctx info)
    { s with m_threads := ts }

/-- Eligibility of a thread for message delivery (iomgr.cpp:255,267): it
must have a message descriptor and be marked an io thread. -/
def eligible (ctx : ioMgrThreadContext) : Bool :=
  ctx.m_msg_fd_info.isSome && ctx.m_is_io_thread

/-- The wakeup-token write loop (iomgr.cpp:261-262): `write` an 8-byte
token to the message eventfd, retrying while it fails with EAGAIN.  The
first argument is the number of EAGAIN failures before the write lands;
exactly one token is added to the eventfd counter. -/
def eventfd_write_retry : Nat → Nat → Nat
  | 0, tokens => tokens + 1
  | Nat.succ k, tokens => eventfd_write_retry k tokens

theorem eventfd_write_retry_adds_one (k tokens : Nat) :
    eventfd_write_retry k tokens = tokens + 1 := by
  induction k with
  | zero => rfl
  | succ k ih => exact ih

/-- Delivery to one thread (iomgr.cpp:259-263): enqueue the message into
the thread's queue, then write one wakeup token (after `e` EAGAIN
retries). -/
def deliver (e : Nat) (msg : iomgr_msg) (ctx : ioMgrThreadContext) :
    ioMgrThreadContext :=
  { ctx with
      m_msg_q := ctx.m_msg_q ++ [msg]
      m_tokens := eventfd_write_retry e ctx.m_tokens }

/-- The broadcast arm of `send_msg` (`access_all_threads`,
iomgr.cpp:254-264): visit every registered context, delivering to the
eligible ones and counting deliveries.  `i` is the running index into the
EAGAIN oracle `eag`. -/
def bcast (msg : iomgr_msg) (eag : Nat → Nat) :
    List ioMgrThreadContext → Nat → List ioMgrThreadContext × Nat
  | [], _ => ([], 0)
  | c :: cs, i =>
    let r := bcast msg eag cs (i + 1)
    if eligible c then (deliver (eag i) msg c :: r.1, r.2 + 1)
    else (c :: r.1, r.2)

/-- The targeted arm of `send_msg` (`access_specific_thread`,
iomgr.cpp:266-274): visit the context whose thread number matches, deliver
if it is eligible. -/
def targeted (tnum : Int) (msg : iomgr_msg) (eag : Nat → Nat) :
    List ioMgrThreadContext → List ioMgrThreadContext × Nat
  | [] => ([], 0)
  | c :: cs =>
    if c.m_thread_num = tnum then
      if eligible c then (deliver (eag 0) msg c :: cs, 1) else (c :: cs, 0)
    else
      let r := targeted tnum msg eag cs
      (c :: r.1, r.2)

/-- `IOManager::send_msg` (iomgr.cpp:251-277): broadcast when
`thread_num == -1`, otherwise target that thread; returns the updated
manager and the delivery count (`msg_sent_count`). -/
def send_msg (s : IOManager) (thread_num : Int) (msg : iomgr_msg)
    (eag : Nat → Nat) : IOManager × Nat :=
  if thread_num = -1 then
    let r := bcast msg eag s.m_threads 0
    ({ s with m_threads := r.1 }, r.2)
  else
    let r := targeted thread_num msg eag s.m_threads
    ({ s with m_threads := r.1 }, r.2)

/-- The fold inside `IOManager::find_least_busy_thread_id`
(iomgr.cpp:238-249): running `(min_id, min_cnt)` accumulator, updated on
every io thread whose `m_count` is strictly below the running minimum. -/
def find_least_busy_fold :
    List ioMgrThreadContext → Int × Nat → Int × Nat
  | [], acc => acc
  | c :: cs, acc =>
    if c.m_is_io_thread then
      if c.m_count < acc.2 then find_least_busy_fold cs (c.m_thread_num, c.m_count)
      else find_least_busy_fold cs acc
    else find_least_busy_fold cs acc

/-- `IOManager::find_least_busy_thread_id` (iomgr.cpp:238-249):
`min_cnt` starts at `UINTMAX_MAX` and `min_id` at 0. -/
def find_least_busy_thread_id (s : IOManager) : Int :=
  (find_least_busy_fold s.m_threads (0, UINTMAX_MAX)).1

/-- `IOManager::send_to_least_busy_thread` (iomgr.cpp:227-236): select the
least-busy target, attempt `send_msg` to it, and loop until an attempt
delivers to exactly one thread.  `env` models the concurrent evolution of
the system between iterations (e.g. the target exiting); `fuel` bounds the
modelled unrolling of the unbounded `do`-loop, `none` standing for not yet
returning within `fuel` iterations. -/
def send_to_least_busy_thread (env : Nat → IOManager → IOManager) :
    Nat → IOManager → iomgr_msg → (Nat → Nat) → Option IOManager
  | 0, _, _, _ => none
  | Nat.succ fuel, s, msg, eag =>
    let min_id := find_least_busy_thread_id s
    let r := send_msg s min_id msg eag
    if r.2 = 1 then some r.1
    else send_to_least_busy_thread env fuel (env fuel r.1) msg eag

theorem mapFind_append (m m' : List (Int × fd_info)) (k : Int) :
    mapFind (m ++ m') k =
      match mapFind m k with
      | some v => some v
      | none => mapFind m' k := by
  induction m with
  | nil => rfl
  | cons p rest ih =>
    by_cases h : p.1 = k
    · simp [mapFind, h]
    · simp [mapFind, h, ih]

theorem mapContains_mapInsert (m : List (Int × fd_info)) (k : Int)
    (v : fd_info) : mapContains (mapInsert m k v) k = true := by
  unfold mapInsert
  by_cases h : mapContains m k = true
  · simp [h]
  · rw [if_neg (by simpa using h)]
    unfold mapContains
    rw [mapFind_append]
    have h' : mapFind m k = none := by
      unfold mapContains at h
      cases hf : mapFind m k with
      | none => rfl
      | some v' => rw [hf] at h; simp at h
    rw [h']
    simp [mapFind]

theorem mapFind_mapErase (m : List (Int × fd_info)) (k : Int) :
    mapFind (mapErase m k) k = none := by
  induction m with
  | nil => rfl
  | cons p rest ih =>
    unfold mapErase at ih ⊢
    by_cases h : p.1 = k
    · simp only [List.filter_cons, h]
      simpa using ih
    · simp only [List.filter_cons]
      rw [if_pos (by simpa using h)]
      rw [mapFind, if_neg h]
      exact ih

theorem mapFind_mapErase_ne (m : List (Int × fd_info)) (k k' : Int)
    (hk : k' ≠ k) : mapFind (mapErase m k) k' = mapFind m k' := by
  induction m with
  | nil => rfl
  | cons p rest ih =>
    unfold mapErase at ih ⊢
    by_cases h : p.1 = k
    · simp only [List.filter_cons, h]
      rw [if_neg (by simp)]
      rw [ih, mapFind, if_neg (by rw [h]; exact fun hc => hk hc.symm)]
    · simp only [List.filter_cons]
      rw [if_pos (by simpa using h)]
      by_cases h' : p.1 = k'
      · rw [mapFind, if_pos h', mapFind, if_pos h']
      · rw [mapFind, if_neg h', mapFind, if_neg h', ih]

/-- C3: behavior of `_add_fd` (iomgr.cpp:135-160).  A global registration
(`is_per_thread_fd == false`) waits until the state is `running` before
proceeding (while a per-thread one never waits); the body then creates a
record with `is_global = true`, attaches it to exactly those registered
threads that are io threads and whose selector accepts it, and inserts it
into the global descriptor map.  A per-thread registration creates a
record with `is_global = false`, attaches it only to the calling thread
(when its selector accepts it), and leaves the global map unchanged. -/
theorem add_fd_spec (s : IOManager) (callerIdx : Nat) (iface : Nat)
    (fd : Int) (cb : Nat) (ev : Int) (pri : Int) (cookie : Nat) :
    (add_fd_waits s false = true ↔ s.m_state ≠ iomgr_state.running) ∧
    (add_fd_waits s true = false) ∧
    ((_add_fd s callerIdx iface fd cb ev pri cookie false).2.is_global = true ∧
     (_add_fd s callerIdx iface fd cb ev pri cookie false).2.fd = fd ∧
     (_add_fd s callerIdx iface fd cb ev pri cookie false).2.pri = pri ∧
     (_add_fd s callerIdx iface fd cb ev pri cookie false).1.m_fd_info_map =
       mapInsert s.m_fd_info_map fd
         (_add_fd s callerIdx iface fd cb ev pri cookie false).2 ∧
     mapContains
       (_add_fd s callerIdx iface fd cb ev pri cookie false).1.m_fd_info_map
       fd = true ∧
     (_add_fd s callerIdx iface fd cb ev pri cookie false).1.m_threads.length =
       s.m_threads.length ∧
     (∀ j (h : j < s.m_threads.length)
        (h2 : j < (_add_fd s callerIdx iface fd cb ev pri cookie
            false).1.m_threads.length),
        ((s.m_threads[j].m_is_io_thread &&
            is_fd_addable s.m_threads[j]
              (_add_fd s callerIdx iface fd cb ev pri cookie false).2) = true →
          (_add_fd s callerIdx iface fd cb ev pri cookie
              false).1.m_threads[j].m_fds =
            s.m_threads[j].m_fds ++
              [(_add_fd s callerIdx iface fd cb ev pri cookie false).2]) ∧
        ((s.m_threads[j].m_is_io_thread &&
            is_fd_addable s.m_threads[j]
              (_add_fd s callerIdx iface fd cb ev pri cookie false).2) = false →
          (_add_fd s callerIdx iface fd cb ev pri cookie
              false).1.m_threads[j] = s.m_threads[j]))) ∧
    ((_add_fd s callerIdx iface fd cb ev pri cookie true).2.is_global = false ∧
     (_add_fd s callerIdx iface fd cb ev pri cookie true).1.m_fd_info_map =
       s.m_fd_info_map ∧
     (_add_fd s callerIdx iface fd cb ev pri cookie true).1.m_threads.length =
       s.m_threads.length ∧
     (∀ j (h : j < s.m_threads.length)
        (h2 : j < (_add_fd s callerIdx iface fd cb ev pri cookie
            true).1.m_threads.length),
        j ≠ callerIdx →
          (_add_fd s callerIdx iface fd cb ev pri cookie
              true).1.m_threads[j] = s.m_threads[j]) ∧
     (∀ (h : callerIdx < s.m_threads.length)
        (h2 : callerIdx < (_add_fd s callerIdx iface fd cb ev pri cookie
            true).1.m_threads.length),
        (is_fd_addable s.m_threads[callerIdx]
            (_add_fd s callerIdx iface fd cb ev pri cookie true).2 = true →
          (_add_fd s callerIdx iface fd cb ev pri cookie
              true).1.m_threads[callerIdx].m_fds =
            s.m_threads[callerIdx].m_fds ++
              [(_add_fd s callerIdx iface fd cb ev pri cookie true).2]) ∧
        (is_fd_addable s.m_threads[callerIdx]
            (_add_fd s callerIdx iface fd cb ev pri cookie true).2 = false →
          (_add_fd s callerIdx iface fd cb ev pri cookie
              true).1.m_threads[callerIdx] = s.m_threads[callerIdx]))) := by
  refine ⟨by simp [add_fd_waits], by simp [add_fd_waits], ?_, ?_⟩
  · refine ⟨rfl, rfl, rfl, rfl, mapContains_mapInsert _ _ _, by simp [_add_fd], ?_⟩
    intro j h h2
    constructor
    · intro hcond
      simp only [_add_fd] at hcond ⊢
      simp only [List.getElem_map]
      rw [if_pos hcond]
      simp [add_fd_to_thread]
    · intro hcond
      simp only [_add_fd] at hcond ⊢
      simp only [List.getElem_map]
      rw [if_neg (by simp [hcond])]
  · refine ⟨rfl, rfl, by simp [_add_fd, updateAt_length], ?_, ?_⟩
    · intro j h h2 hne
      simp only [_add_fd] at h2 ⊢
      rw [updateAt_getElem s.m_threads callerIdx _ j h h2]
      rw [if_neg hne]
    · intro h h2
      constructor
      · intro hcond
        simp only [_add_fd] at hcond h2 ⊢
        rw [updateAt_getElem s.m_threads callerIdx _ callerIdx h h2]
        rw [if_pos rfl, if_pos hcond]
        simp [add_fd_to_thread]
      · intro hcond
        simp only [_add_fd] at hcond h2 ⊢
        rw [updateAt_getElem s.m_threads callerIdx _ callerIdx h h2]
        rw [if_pos rfl, if_neg (by simp [hcond])]

/-- A sample thread context used by concrete witnesses: thread number 0,
io thread, empty queue, a message descriptor installed, no selector. -/
def sampleCtx : ioMgrThreadContext :=
  { m_thread_num := 0
    m_msg_fd_info := some (create_fd_info 0 100 0 0 0 0)
    m_count := 0
    m_is_io_thread := true
    m_is_iomgr_thread := true
    m_keep_running := true
    m_fd_selector := none
    m_msg_q := []
    m_fds := []
    m_tokens := 0 }

/-- A sample manager with one registered io thread. -/
def sampleMgr2 : IOManager := { sampleMgr with m_threads := [sampleCtx] }

/-- Witness for C3: a global and a per-thread registration of fd 7 on the
one-thread sample manager. -/
theorem add_fd_spec_witness :
    (add_fd_waits sampleMgr2 false = true ↔
      sampleMgr2.m_state ≠ iomgr_state.running) ∧
    (add_fd_waits sampleMgr2 true = false) ∧
    (_add_fd sampleMgr2 0 0 7 0 0 9 0 false).2.is_global = true ∧
    (_add_fd sampleMgr2 0 0 7 0 0 9 0 true).2.is_global = false ∧
    (_add_fd sampleMgr2 0 0 7 0 0 9 0 true).1.m_fd_info_map =
      sampleMgr2.m_fd_info_map := by
  have h := add_fd_spec sampleMgr2 0 0 7 0 0 9 0
  exact ⟨h.1, h.2.1, h.2.2.1.1, h.2.2.2.1, h.2.2.2.2.1⟩

/-- Evaluation of `remove_fd` outside `running`/`stopping`
(iomgr.cpp:164-168): nothing happens. -/
theorem remove_fd_noop (s : IOManager) (info : fd_info)
    (iomgr_ctx : Option Nat) (callerIdx : Nat)
    (hbad : s.m_state ≠ iomgr_state.running ∧
      s.m_state ≠ iomgr_state.stopping) :
    remove_fd s info iomgr_ctx callerIdx = s := by
  unfold remove_fd
  rw [if_pos hbad]

/-- Evaluation of `remove_fd` on a global record in `running`/`stopping`
(iomgr.cpp:170-174). -/
theorem remove_fd_global_eq (s : IOManager) (info : fd_info)
    (iomgr_ctx : Option Nat) (callerIdx : Nat)
    (hok : ¬(s.m_state ≠ iomgr_state.running ∧
      s.m_state ≠ iomgr_state.stopping))
    (hg : info.is_global = true) :
    remove_fd s info iomgr_ctx callerIdx =
      { s with
          m_threads := s.m_threads.map (fun ctx =>
            if ctx.m_is_io_thread then remove_fd_from_thread ctx info
            else ctx),
          m_fd_info_map := mapErase s.m_fd_info_map info.fd } := by
  unfold remove_fd
  rw [if_neg hok, if_pos hg]

/-- Evaluation of `remove_fd` on a per-thread record in
`running`/`stopping` (iomgr.cpp:176). -/
theorem remove_fd_perthread_eq (s : IOManager) (info : fd_info)
    (iomgr_ctx : Option Nat) (callerIdx : Nat)
    (hok : ¬(s.m_state ≠ iomgr_state.running ∧
      s.m_state ≠ iomgr_state.stopping))
    (hg : info.is_global = false) :
    remove_fd s info iomgr_ctx callerIdx =
      { s with
          m_threads := updateAt s.m_threads (iomgr_ctx.getD callerIdx)
            (fun ctx => remove_fd_from_thread ctx info) } := by
  unfold remove_fd
  rw [if_neg hok, if_neg (by simp [hg])]

/-- C4: behavior of `remove_fd` (iomgr.cpp:162-178).  Outside
`running`/`stopping` the call is a no-op on the whole manager (the
violation is only logged).  In `running` or `stopping`: a global record is
removed from every io thread's multiplexer set and its entry erased from
the global descriptor map (non-io threads untouched); a per-thread record
is removed only from the given (or, absent that, the calling) thread's
context, the map and all other threads unchanged. -/
theorem remove_fd_spec (s : IOManager) (info : fd_info)
    (iomgr_ctx : Option Nat) (callerIdx : Nat) :
    (s.m_state ≠ iomgr_state.running ∧ s.m_state ≠ iomgr_state.stopping →
      remove_fd s info iomgr_ctx callerIdx = s) ∧
    (s.m_state = iomgr_state.running ∨ s.m_state = iomgr_state.stopping →
      (info.is_global = true →
        (remove_fd s info iomgr_ctx callerIdx).m_fd_info_map =
          mapErase s.m_fd_info_map info.fd ∧
        mapFind (remove_fd s info iomgr_ctx callerIdx).m_fd_info_map
          info.fd = none ∧
        (remove_fd s info iomgr_ctx callerIdx).m_threads.length =
          s.m_threads.length ∧
        (∀ j (h : j < s.m_threads.length)
           (h2 : j < (remove_fd s info iomgr_ctx callerIdx).m_threads.length),
           (s.m_threads[j].m_is_io_thread = true →
             (remove_fd s info iomgr_ctx callerIdx).m_threads[j].m_fds =
               s.m_threads[j].m_fds.filter
                 (fun r => decide (r.fd ≠ info.fd))) ∧
           (s.m_threads[j].m_is_io_thread = false →
             (remove_fd s info iomgr_ctx callerIdx).m_threads[j] =
               s.m_threads[j]))) ∧
      (info.is_global = false →
        (remove_fd s info iomgr_ctx callerIdx).m_fd_info_map =
          s.m_fd_info_map ∧
        (remove_fd s info iomgr_ctx callerIdx).m_threads.length =
          s.m_threads.length ∧
        (∀ j (h : j < s.m_threads.length)
           (h2 : j < (remove_fd s info iomgr_ctx callerIdx).m_threads.length),
           j ≠ iomgr_ctx.getD callerIdx →
             (remove_fd s info iomgr_ctx callerIdx).m_threads[j] =
               s.m_threads[j]) ∧
        (∀ (h : iomgr_ctx.getD callerIdx < s.m_threads.length)
           (h2 : iomgr_ctx.getD callerIdx <
             (remove_fd s info iomgr_ctx callerIdx).m_threads.length),
           (remove_fd s info iomgr_ctx
               callerIdx).m_threads[iomgr_ctx.getD callerIdx].m_fds =
             s.m_threads[iomgr_ctx.getD callerIdx].m_fds.filter
               (fun r => decide (r.fd ≠ info.fd))))) := by
  constructor
  · intro hbad
    exact remove_fd_noop s info iomgr_ctx callerIdx hbad
  · intro hok
    have hcond : ¬(s.m_state ≠ iomgr_state.running ∧
        s.m_state ≠ iomgr_state.stopping) := by
      rcases hok with h | h <;> simp [h]
    constructor
    · intro hg
      have heq := remove_fd_global_eq s info iomgr_ctx callerIdx hcond hg
      refine ⟨by rw [heq], by rw [heq]; exact mapFind_mapErase _ _,
        by rw [heq]; simp, ?_⟩
      intro j h h2
      constructor
      · intro hio
        simp only [heq, List.getElem_map]
        rw [if_pos hio]
        simp [remove_fd_from_thread]
      · intro hio
        simp only [heq, List.getElem_map]
        rw [if_neg (by simp [hio])]
    · intro hg
      have heq := remove_fd_perthread_eq s info iomgr_ctx callerIdx hcond hg
      refine ⟨by rw [heq], by rw [heq]; simp [updateAt_length], ?_, ?_⟩
      · intro j h h2 hne
        simp only [heq] at h2 ⊢
        rw [updateAt_getElem s.m_threads _ _ j h (by simpa using h2)]
        rw [if_neg hne]
      · intro h h2
        simp only [heq] at h2 ⊢
        rw [updateAt_getElem s.m_threads _ _ _ h (by simpa using h2)]
        rw [if_pos rfl]
        simp [remove_fd_from_thread]

/-- Witness for C4: removing a per-thread record in `stopped` state is a
no-op; removing a global record in `running` state erases its map entry. -/
theorem remove_fd_spec_witness :
    (({ sampleMgr2 with m_state := iomgr_state.stopped } : IOManager).m_state ≠
        iomgr_state.running ∧
      ({ sampleMgr2 with m_state := iomgr_state.stopped } : IOManager).m_state ≠
        iomgr_state.stopping →
      remove_fd { sampleMgr2 with m_state := iomgr_state.stopped }
        (create_fd_info 0 3 0 0 9 0) none 0 =
        { sampleMgr2 with m_state := iomgr_state.stopped }) ∧
    mapFind (remove_fd sampleMgr2
        { create_fd_info 0 3 0 0 9 0 with is_global := true } none
        0).m_fd_info_map 3 = none := by
  constructor
  · exact (remove_fd_spec { sampleMgr2 with m_state := iomgr_state.stopped }
      (create_fd_info 0 3 0 0 9 0) none 0).1
  · have h := ((remove_fd_spec sampleMgr2
      { create_fd_info 0 3 0 0 9 0 with is_global := true } none 0).2
      (Or.inl rfl)).1 rfl
    exact h.2.1


theorem bcast_length (msg : iomgr_msg) (eag : Nat → Nat)
    (l : List ioMgrThreadContext) (i : Nat) :
    (bcast msg eag l i).1.length = l.length := by
  induction l generalizing i with
  | nil => rfl
  | cons c cs ih =>
    by_cases hc : eligible c = true <;> simp [bcast, hc, ih]

theorem bcast_count (msg : iomgr_msg) (eag : Nat → Nat)
    (l : List ioMgrThreadContext) (i : Nat) :
    (bcast msg eag l i).2 = (l.filter eligible).length := by
  induction l generalizing i with
  | nil => rfl
  | cons c cs ih =>
    by_cases hc : eligible c = true <;> simp [bcast, hc, ih]

theorem bcast_getElem (msg : iomgr_msg) (eag : Nat → Nat)
    (l : List ioMgrThreadContext) (i : Nat) (j : Nat) (h : j < l.length)
    (h2 : j < (bcast msg eag l i).1.length) :
    (bcast msg eag l i).1[j] =
      if eligible l[j] then deliver (eag (i + j)) msg l[j] else l[j] := by
  induction l generalizing i j with
  | nil => exact absurd h (by simp)
  | cons c cs ih =>
    by_cases hc : eligible c = true
    · have hL : (bcast msg eag (c :: cs) i).1 =
          deliver (eag i) msg c :: (bcast msg eag cs (i + 1)).1 := by
        simp [bcast, hc]
      cases j with
      | zero => simp only [hL, List.getElem_cons_zero]; simp [hc]
      | succ j =>
        have h' : j < cs.length := Nat.lt_of_succ_lt_succ (by simpa using h)
        have h2' : j < (bcast msg eag cs (i + 1)).1.length := by
          rw [bcast_length]; exact h'
        have e := ih (i + 1) j h' h2'
        have harith : i + 1 + j = i + (j + 1) := by omega
        simp only [hL, List.getElem_cons_succ, e, harith]
    · have hL : (bcast msg eag (c :: cs) i).1 =
          c :: (bcast msg eag cs (i + 1)).1 := by
        simp [bcast, hc]
      cases j with
      | zero => simp only [hL, List.getElem_cons_zero]; simp [hc]
      | succ j =>
        have h' : j < cs.length := Nat.lt_of_succ_lt_succ (by simpa using h)
        have h2' : j < (bcast msg eag cs (i + 1)).1.length := by
          rw [bcast_length]; exact h'
        have e := ih (i + 1) j h' h2'
        have harith : i + 1 + j = i + (j + 1) := by omega
        simp only [hL, List.getElem_cons_succ, e, harith]

theorem bcast_no_eligible (msg : iomgr_msg) (eag : Nat → Nat) :
    ∀ (l : List ioMgrThreadContext) (i : Nat),
      (∀ c ∈ l, eligible c = false) → bcast msg eag l i = (l, 0) := by
  intro l
  induction l with
  | nil => intro i _; rfl
  | cons c cs ih =>
    intro i h
    have hc := h c (List.mem_cons_self _ _)
    have hrest := ih (i + 1) (fun c' hm => h c' (List.mem_cons_of_mem _ hm))
    simp [bcast, hc, hrest]

theorem targeted_length (tnum : Int) (msg : iomgr_msg) (eag : Nat → Nat)
    (l : List ioMgrThreadContext) :
    (targeted tnum msg eag l).1.length = l.length := by
  induction l with
  | nil => rfl
  | cons c cs ih =>
    by_cases hm : c.m_thread_num = tnum
    · by_cases hc : eligible c = true <;> simp [targeted, hm, hc]
    · simp [targeted, hm, ih]

theorem map_num_nodup_tail {c : ioMgrThreadContext}
    {cs : List ioMgrThreadContext}
    (hU : ((c :: cs).map (fun x => x.m_thread_num)).Nodup) :
    c.m_thread_num ∉ cs.map (fun x => x.m_thread_num) ∧
      (cs.map (fun x => x.m_thread_num)).Nodup := by
  rw [List.map_cons, List.nodup_cons] at hU
  exact hU

theorem targeted_count (tnum : Int) (msg : iomgr_msg) (eag : Nat → Nat)
    (l : List ioMgrThreadContext)
    (hU : (l.map (fun c => c.m_thread_num)).Nodup) :
    (targeted tnum msg eag l).2 =
      if l.any (fun c => decide (c.m_thread_num = tnum) && eligible c) then 1
      else 0 := by
  induction l with
  | nil => rfl
  | cons c cs ih =>
    obtain ⟨hnotin, hU'⟩ := map_num_nodup_tail hU
    by_cases hm : c.m_thread_num = tnum
    · have htail : cs.any
          (fun c' => decide (c'.m_thread_num = tnum) && eligible c') = false := by
        rw [List.any_eq_false]
        intro c' hm'
        have : c'.m_thread_num ≠ tnum := by
          intro he
          exact hnotin (by
            rw [← hm] at he
            exact he ▸ List.mem_map_of_mem (fun x => x.m_thread_num) hm')
        simp [this]
      by_cases hc : eligible c = true <;>
        simp [targeted, hm, hc, htail]
    · simp [targeted, hm, ih hU']

theorem targeted_getElem (tnum : Int) (msg : iomgr_msg) (eag : Nat → Nat)
    (l : List ioMgrThreadContext)
    (hU : (l.map (fun c => c.m_thread_num)).Nodup) (j : Nat)
    (h : j < l.length) (h2 : j < (targeted tnum msg eag l).1.length) :
    (targeted tnum msg eag l).1[j] =
      if l[j].m_thread_num = tnum ∧ eligible l[j] = true then
        deliver (eag 0) msg l[j]
      else l[j] := by
  induction l generalizing j with
  | nil => exact absurd h (by simp)
  | cons c cs ih =>
    obtain ⟨hnotin, hU'⟩ := map_num_nodup_tail hU
    by_cases hm : c.m_thread_num = tnum
    · by_cases hc : eligible c = true
      · have hL : (targeted tnum msg eag (c :: cs)).1 =
            deliver (eag 0) msg c :: cs := by simp [targeted, hm, hc]
        cases j with
        | zero => simp only [hL, List.getElem_cons_zero]; simp [hm, hc]
        | succ j =>
          have h' : j < cs.length := Nat.lt_of_succ_lt_succ (by simpa using h)
          have hne : cs[j].m_thread_num ≠ tnum := by
            intro he
            refine hnotin ?_
            rw [← hm] at he
            exact he ▸ List.mem_map_of_mem (fun x => x.m_thread_num)
              (List.getElem_mem h')
          simp only [hL, List.getElem_cons_succ]
          rw [if_neg (fun hcon => hne hcon.1)]
      · have hL : (targeted tnum msg eag (c :: cs)).1 = c :: cs := by
          simp [targeted, hm, hc]
        cases j with
        | zero =>
          simp only [hL, List.getElem_cons_zero]
          rw [if_neg (fun hcon => hc hcon.2)]
        | succ j =>
          have h' : j < cs.length := Nat.lt_of_succ_lt_succ (by simpa using h)
          have hne : cs[j].m_thread_num ≠ tnum := by
            intro he
            refine hnotin ?_
            rw [← hm] at he
            exact he ▸ List.mem_map_of_mem (fun x => x.m_thread_num)
              (List.getElem_mem h')
          simp only [hL, List.getElem_cons_succ]
          rw [if_neg (fun hcon => hne hcon.1)]
    · have hL : (targeted tnum msg eag (c :: cs)).1 =
          c :: (targeted tnum msg eag cs).1 := by simp [targeted, hm]
      cases j with
      | zero =>
        simp only [hL, List.getElem_cons_zero]
        rw [if_neg (fun hcon => hm hcon.1)]
      | succ j =>
        have h' : j < cs.length := Nat.lt_of_succ_lt_succ (by simpa using h)
        have h2' : j < (targeted tnum msg eag cs).1.length := by
          rw [targeted_length]; exact h'
        have e := ih hU' j h' h2'
        simp only [hL, List.getElem_cons_succ, e]

/-- C5: behavior of `send_msg` (iomgr.cpp:251-277).  `thread_num == -1`
broadcasts: exactly the threads with a message descriptor that are marked
io threads (`eligible`) receive the message — each such thread's queue
gets the message appended and exactly one 8-byte wakeup token lands on its
message descriptor (retried past any number of EAGAIN failures) — and the
return value is the number of threads delivered to; with zero eligible
threads the broadcast returns 0 and changes nothing (no blocking).  Any
other `thread_num` targets exactly the thread with that number (granted
distinct thread numbers): it alone is delivered to, when it qualifies, and
the return value is 1 or 0 accordingly. -/
theorem send_msg_spec (s : IOManager) (msg : iomgr_msg) (eag : Nat → Nat) :
    ((send_msg s (-1) msg eag).2 = (s.m_threads.filter eligible).length ∧
     (send_msg s (-1) msg eag).1.m_threads.length = s.m_threads.length ∧
     (∀ j (h : j < s.m_threads.length)
        (h2 : j < (send_msg s (-1) msg eag).1.m_threads.length),
        (eligible s.m_threads[j] = true →
          (send_msg s (-1) msg eag).1.m_threads[j].m_msg_q =
              s.m_threads[j].m_msg_q ++ [msg] ∧
          (send_msg s (-1) msg eag).1.m_threads[j].m_tokens =
              s.m_threads[j].m_tokens + 1 ∧
          (send_msg s (-1) msg eag).1.m_threads[j].m_fds =
              s.m_threads[j].m_fds) ∧
        (eligible s.m_threads[j] = false →
          (send_msg s (-1) msg eag).1.m_threads[j] = s.m_threads[j])) ∧
     ((s.m_threads.filter eligible).length = 0 →
        (send_msg s (-1) msg eag).2 = 0 ∧ (send_msg s (-1) msg eag).1 = s)) ∧
    (∀ tnum : Int, tnum ≠ -1 →
      (s.m_threads.map (fun c => c.m_thread_num)).Nodup →
      (send_msg s tnum msg eag).1.m_threads.length = s.m_threads.length ∧
      (send_msg s tnum msg eag).2 =
        (if s.m_threads.any
            (fun c => decide (c.m_thread_num = tnum) && eligible c) then 1
         else 0) ∧
      (∀ j (h : j < s.m_threads.length)
         (h2 : j < (send_msg s tnum msg eag).1.m_threads.length),
         (s.m_threads[j].m_thread_num = tnum ∧ eligible s.m_threads[j] = true →
           (send_msg s tnum msg eag).1.m_threads[j].m_msg_q =
               s.m_threads[j].m_msg_q ++ [msg] ∧
           (send_msg s tnum msg eag).1.m_threads[j].m_tokens =
               s.m_threads[j].m_tokens + 1) ∧
         (¬(s.m_threads[j].m_thread_num = tnum ∧
              eligible s.m_threads[j] = true) →
           (send_msg s tnum msg eag).1.m_threads[j] = s.m_threads[j]))) := by
  constructor
  · refine ⟨bcast_count msg eag s.m_threads 0,
      bcast_length msg eag s.m_threads 0, ?_, ?_⟩
    · intro j h h2
      have e : (send_msg s (-1) msg eag).1.m_threads[j] =
          if eligible s.m_threads[j] then deliver (eag (0 + j)) msg
            s.m_threads[j]
          else s.m_threads[j] :=
        bcast_getElem msg eag s.m_threads 0 j h h2
      constructor
      · intro helig
        rw [e, if_pos helig]
        refine ⟨rfl, ?_, rfl⟩
        simp [deliver, eventfd_write_retry_adds_one]
      · intro helig
        rw [e, if_neg (by simp [helig])]
    · intro hzero
      have hnil : s.m_threads.filter eligible = [] :=
        List.length_eq_zero.mp hzero
      have hfe : ∀ c ∈ s.m_threads, eligible c = false := by
        intro c hm
        have := List.filter_eq_nil_iff.mp hnil c hm
        simpa using this
      have hb : bcast msg eag s.m_threads 0 = (s.m_threads, 0) :=
        bcast_no_eligible msg eag s.m_threads 0 hfe
      constructor
      · show (bcast msg eag s.m_threads 0).2 = 0
        rw [hb]
      · show ({ s with m_threads := (bcast msg eag s.m_threads 0).1 } :
            IOManager) = s
        rw [hb]
  · intro tnum hne hU
    have hsm : send_msg s tnum msg eag =
        ({ s with m_threads := (targeted tnum msg eag s.m_threads).1 },
          (targeted tnum msg eag s.m_threads).2) := by
      unfold send_msg
      rw [if_neg hne]
    refine ⟨by rw [hsm]; exact targeted_length tnum msg eag s.m_threads,
      by rw [hsm]; exact targeted_count tnum msg eag s.m_threads hU, ?_⟩
    intro j h h2
    have h2' : j < (targeted tnum msg eag s.m_threads).1.length := by
      rw [targeted_length]; exact h
    have e : (send_msg s tnum msg eag).1.m_threads[j] =
        if s.m_threads[j].m_thread_num = tnum ∧
            eligible s.m_threads[j] = true then
          deliver (eag 0) msg s.m_threads[j]
        else s.m_threads[j] := by
      simp only [hsm]
      exact targeted_getElem tnum msg eag s.m_threads hU j h h2'
    constructor
    · intro hcon
      rw [e, if_pos hcon]
      exact ⟨rfl, by simp [deliver, eventfd_write_retry_adds_one]⟩
    · intro hcon
      rw [e, if_neg hcon]

/-- A fixed message and EAGAIN oracle for the concrete witnesses. -/
def msg0 : iomgr_msg :=
  { m_type := iomgr_msg_type.WAKEUP, m_fd := none, m_event := 0,
    m_payload := none }

/-- EAGAIN oracle: every write succeeds at the first attempt. -/
def eag0 : Nat → Nat := fun _ => 0

/-- Witness for C5 on the one-io-thread sample manager: the broadcast
delivers to the one eligible thread, and targeting thread 0 delivers to
it. -/
theorem send_msg_spec_witness :
    (send_msg sampleMgr2 (-1) msg0 eag0).2 =
      (sampleMgr2.m_threads.filter eligible).length ∧
    (send_msg sampleMgr2 0 msg0 eag0).2 =
      (if sampleMgr2.m_threads.any
          (fun c => decide (c.m_thread_num = 0) && eligible c) then 1
       else 0) := by
  constructor
  · exact (send_msg_spec sampleMgr2 msg0 eag0).1.1
  · exact ((send_msg_spec sampleMgr2 msg0 eag0).2 0 (by decide)
      (by simp [sampleMgr2, sampleCtx])).2.1

theorem find_fold_no_improve :
    ∀ (l : List ioMgrThreadContext) (acc : Int × Nat),
      (∀ c ∈ l, c.m_is_io_thread = true → ¬(c.m_count < acc.2)) →
      find_least_busy_fold l acc = acc := by
  intro l
  induction l with
  | nil => intro acc _; rfl
  | cons c cs ih =>
    intro acc h
    by_cases hio : c.m_is_io_thread = true
    · have hnlt := h c (List.mem_cons_self _ _) hio
      rw [find_least_busy_fold, if_pos hio, if_neg hnlt]
      exact ih acc (fun c' hm => h c' (List.mem_cons_of_mem _ hm))
    · rw [find_least_busy_fold, if_neg hio]
      exact ih acc (fun c' hm => h c' (List.mem_cons_of_mem _ hm))

theorem find_fold_min :
    ∀ (l : List ioMgrThreadContext) (acc : Int × Nat),
      (∃ c ∈ l, c.m_is_io_thread = true ∧ c.m_count < acc.2) →
      ∃ c ∈ l, c.m_is_io_thread = true ∧
        (find_least_busy_fold l acc).1 = c.m_thread_num ∧
        (find_least_busy_fold l acc).2 = c.m_count ∧
        (∀ d ∈ l, d.m_is_io_thread = true → c.m_count ≤ d.m_count) ∧
        (find_least_busy_fold l acc).2 < acc.2 := by
  intro l
  induction l with
  | nil => intro acc h; simp at h
  | cons c cs ih =>
    intro acc h
    by_cases hio : c.m_is_io_thread = true
    · by_cases hlt : c.m_count < acc.2
      · rw [find_least_busy_fold, if_pos hio, if_pos hlt]
        by_cases hex : ∃ d ∈ cs, d.m_is_io_thread = true ∧
            d.m_count < (c.m_thread_num, c.m_count).2
        · obtain ⟨w, hwmem, hwio, hw1, hw2, hwmin, hwlt⟩ := ih _ hex
          refine ⟨w, List.mem_cons_of_mem _ hwmem, hwio, hw1, hw2, ?_, ?_⟩
          · intro d hd hdio
            rcases List.mem_cons.mp hd with hd | hd
            · rw [hd]
              have hwc : w.m_count < c.m_count := by
                have hx := hwlt
                rw [hw2] at hx
                simpa using hx
              exact Nat.le_of_lt hwc
            · exact hwmin d hd hdio
          · calc (find_least_busy_fold cs (c.m_thread_num, c.m_count)).2
                < c.m_count := by simpa using hwlt
              _ < acc.2 := hlt
        · push_neg at hex
          have heq := find_fold_no_improve cs (c.m_thread_num, c.m_count)
            (fun d hd hdio => by
              intro hcon
              exact absurd hcon (by simpa using hex d hd hdio))
          rw [heq]
          refine ⟨c, List.mem_cons_self _ _, hio, rfl, rfl, ?_, hlt⟩
          intro d hd hdio
          rcases List.mem_cons.mp hd with hd | hd
          · subst hd; exact Nat.le_refl _
          · have := hex d hd hdio
            simpa using Nat.le_of_not_lt (by simpa using this)
      · rw [find_least_busy_fold, if_pos hio, if_neg hlt]
        have hex : ∃ d ∈ cs, d.m_is_io_thread = true ∧ d.m_count < acc.2 := by
          obtain ⟨w, hwmem, hwio, hwlt⟩ := h
          rcases List.mem_cons.mp hwmem with hw | hw
          · subst hw; exact absurd hwlt hlt
          · exact ⟨w, hw, hwio, hwlt⟩
        obtain ⟨w, hwmem, hwio, hw1, hw2, hwmin, hwlt⟩ := ih acc hex
        refine ⟨w, List.mem_cons_of_mem _ hwmem, hwio, hw1, hw2, ?_, hwlt⟩
        intro d hd hdio
        rcases List.mem_cons.mp hd with hd | hd
        · rw [hd]
          exact Nat.le_of_lt (calc
            w.m_count = (find_least_busy_fold cs acc).2 := hw2.symm
            _ < acc.2 := hwlt
            _ ≤ c.m_count := Nat.le_of_not_lt hlt)
        · exact hwmin d hd hdio
    · rw [find_least_busy_fold, if_neg hio]
      have hex : ∃ d ∈ cs, d.m_is_io_thread = true ∧ d.m_count < acc.2 := by
        obtain ⟨w, hwmem, hwio, hwlt⟩ := h
        rcases List.mem_cons.mp hwmem with hw | hw
        · subst hw; exact absurd hwio hio
        · exact ⟨w, hw, hwio, hwlt⟩
      obtain ⟨w, hwmem, hwio, hw1, hw2, hwmin, hwlt⟩ := ih acc hex
      refine ⟨w, List.mem_cons_of_mem _ hwmem, hwio, hw1, hw2, ?_, hwlt⟩
      intro d hd hdio
      rcases List.mem_cons.mp hd with hd | hd
      · subst hd; exact absurd hdio hio
      · exact hwmin d hd hdio

/-- A manager with a single registered thread that is not an io thread
(thread number 5): the situation after the only io thread has exited, or
before any thread became an io thread. -/
def cexMgr6 : IOManager := { sampleMgr with
  m_threads := [{ m_thread_num := 5
                  m_msg_fd_info := none
                  m_count := 0
                  m_is_io_thread := false
                  m_is_iomgr_thread := false
                  m_keep_running := true
                  m_fd_selector := none
                  m_msg_q := []
                  m_fds := []
                  m_tokens := 0 }] }

/-- C6 counterexample: the claim states every iteration of
`send_to_least_busy_thread` selects a thread that is an io thread with
minimal `m_count`; but with no io thread registered
`find_least_busy_thread_id` returns its initializer `min_id = 0`
(iomgr.cpp:240), which is not the number of any io thread, and the send
attempt to it delivers to zero threads. -/
theorem find_least_busy_no_io_thread_counterexample :
    find_least_busy_thread_id cexMgr6 = 0 ∧
    (cexMgr6.m_threads.all (fun c => !c.m_is_io_thread)) = true ∧
    (send_msg cexMgr6 0 msg0 eag0).2 = 0 := by
  refine ⟨rfl, rfl, rfl⟩

/-- C6 amended: whenever at least one registered thread is an io thread
with `m_count` below the `UINTMAX_MAX` sentinel, `find_least_busy_thread_id`
returns the thread number of an io thread whose `m_count` is minimal over
all io threads (without such a thread it falls back to the initializer 0);
`send_to_least_busy_thread` selects its target this way each iteration,
returns exactly when an attempt delivers the message to exactly one
thread, and re-attempts on the concurrently evolved system after a failed
attempt. -/
theorem send_to_least_busy_thread_spec (s : IOManager)
    (env : Nat → IOManager → IOManager) (msg : iomgr_msg) (eag : Nat → Nat)
    (fuel : Nat)
    (hex : ∃ c ∈ s.m_threads, c.m_is_io_thread = true ∧
      c.m_count < UINTMAX_MAX) :
    (∃ c ∈ s.m_threads, c.m_is_io_thread = true ∧
      find_least_busy_thread_id s = c.m_thread_num ∧
      (∀ d ∈ s.m_threads, d.m_is_io_thread = true →
        c.m_count ≤ d.m_count)) ∧
    (∀ (fl : Nat) (s' : IOManager) (r : IOManager),
      send_to_least_busy_thread env fl s' msg eag = some r →
      ∃ s₀ : IOManager,
        send_msg s₀ (find_least_busy_thread_id s₀) msg eag = (r, 1)) ∧
    ((send_msg s (find_least_busy_thread_id s) msg eag).2 ≠ 1 →
      send_to_least_busy_thread env (fuel + 1) s msg eag =
        send_to_least_busy_thread env fuel
          (env fuel (send_msg s (find_least_busy_thread_id s) msg eag).1)
          msg eag) := by
  refine ⟨?_, ?_, ?_⟩
  · obtain ⟨w, hwm, hwio, hwlt⟩ := hex
    obtain ⟨c, hcm, hcio, hc1, _, hcmin, _⟩ :=
      find_fold_min s.m_threads (0, UINTMAX_MAX) ⟨w, hwm, hwio, hwlt⟩
    exact ⟨c, hcm, hcio, hc1, hcmin⟩
  · intro fl
    induction fl with
    | zero => intro s' r hr; simp [send_to_least_busy_thread] at hr
    | succ fl ih =>
      intro s' r hr
      rw [send_to_least_busy_thread] at hr
      by_cases hs : (send_msg s' (find_least_busy_thread_id s') msg eag).2 = 1
      · rw [if_pos hs] at hr
        refine ⟨s', ?_⟩
        have h1 : (send_msg s' (find_least_busy_thread_id s') msg eag).1 =
            r := by injection hr
        calc send_msg s' (find_least_busy_thread_id s') msg eag
            = ((send_msg s' (find_least_busy_thread_id s') msg eag).1,
               (send_msg s' (find_least_busy_thread_id s') msg eag).2) := rfl
          _ = (r, 1) := by rw [h1, hs]
      · rw [if_neg hs] at hr
        exact ih _ r hr
  · intro hfail
    rw [send_to_least_busy_thread, if_neg hfail]

/-- Witness for the amended C6: on the one-io-thread sample manager the
least-busy selection returns thread 0, and a one-iteration loop that
succeeds came from a single delivery. -/
theorem send_to_least_busy_thread_spec_witness :
    (∃ c ∈ sampleMgr2.m_threads, c.m_is_io_thread = true ∧
      find_least_busy_thread_id sampleMgr2 = c.m_thread_num ∧
      (∀ d ∈ sampleMgr2.m_threads, d.m_is_io_thread = true →
        c.m_count ≤ d.m_count)) ∧
    (∀ (fl : Nat) (s' : IOManager) (r : IOManager),
      send_to_least_busy_thread (fun _ x => x) fl s' msg0 eag0 = some r →
      ∃ s₀ : IOManager,
        send_msg s₀ (find_least_busy_thread_id s₀) msg0 eag0 = (r, 1)) := by
  have h := send_to_least_busy_thread_spec sampleMgr2 (fun _ x => x) msg0
    eag0 0 ⟨sampleCtx, by simp [sampleMgr2], rfl, by norm_num [sampleCtx, UINTMAX_MAX]⟩
  exact ⟨h.1, h.2.1⟩

/-- The RELINQUISH_IO_THREAD message constructed by `stop()`
(iomgr.cpp:59): `iomgr_msg msg(iomgr_msg_type::RELINQUISH_IO_THREAD)`, no
descriptor, no payload (remaining constructor defaults are not part of
`src/` and are irrelevant here). -/
def relinquish_msg : iomgr_msg :=
  { m_type := iomgr_msg_type.RELINQUISH_IO_THREAD, m_fd := none,
    m_event := -1, m_payload := none }

/-- `IOManager::io_thread_stopped` (iomgr.cpp:131-133):
`m_yet_to_stop_nthreads.decrement_testz()` and, on reaching zero, the
transition to `stopped`.  The same decrement-and-test ends `stop()` itself
(iomgr.cpp:66-67). -/
def io_thread_stopped (s : IOManager) : IOManager :=
  if s.m_yet_to_stop_nthreads - 1 = 0 then
    { s with m_yet_to_stop_nthreads := s.m_yet_to_stop_nthreads - 1,
             m_state := iomgr_state.stopped }
  else
    { s with m_yet_to_stop_nthreads := s.m_yet_to_stop_nthreads - 1 }

theorem io_thread_stopped_yet (s : IOManager) :
    (io_thread_stopped s).m_yet_to_stop_nthreads =
      s.m_yet_to_stop_nthreads - 1 := by
  unfold io_thread_stopped
  split <;> rfl

theorem io_thread_stopped_timer (s : IOManager) :
    (io_thread_stopped s).m_global_timer = s.m_global_timer := by
  unfold io_thread_stopped
  split <;> rfl

theorem io_thread_stopped_threads (s : IOManager) :
    (io_thread_stopped s).m_threads = s.m_threads := by
  unfold io_thread_stopped
  split <;> rfl

/-- The first half of `IOManager::stop` (iomgr.cpp:52-56): transition to
`stopping` and pre-increment `m_yet_to_stop_nthreads` (the guard against
the zero-io-thread hang), before the broadcast. -/
def stop_pre (s : IOManager) : IOManager :=
  { s with m_state := iomgr_state.stopping,
           m_yet_to_stop_nthreads := s.m_yet_to_stop_nthreads + 1 }

/-- `IOManager::stop` up to its decrement-and-test (iomgr.cpp:52-67):
after `stop_pre`, broadcast RELINQUISH_IO_THREAD via `send_msg(-1, ...)`,
null the global timer, then decrement-and-test the latch (shared with
`io_thread_stopped`): if it reaches zero the state becomes `stopped`
immediately, otherwise the caller blocks in `wait_to_be_stopped()`. -/
def stop_phase (s : IOManager) (eag : Nat → Nat) : IOManager :=
  io_thread_stopped
    { (send_msg (stop_pre s) (-1) relinquish_msg eag).1 with
        m_global_timer := none }

/-- The tail of `IOManager::stop` after the wait (iomgr.cpp:74-84): join
and clear the spawned threads, reset `m_yet_to_start_nthreads` and
`m_expected_ifaces`, clear the drive and interface registries. -/
def stop_finish (s : IOManager) : IOManager :=
  { s with m_iomgr_threads := [],
           m_yet_to_start_nthreads := 0,
           m_expected_ifaces := inbuilt_interface_count,
           m_drive_ifaces := [],
           m_iface_list := [] }

/-- The whole of `IOManager::stop` as observed by its caller, `n` being
the number of live io threads (each of which, upon consuming the
RELINQUISH_IO_THREAD message, runs `io_thread_stopped`; the blocking
`wait_to_be_stopped()` returns once the last of them flips the state). -/
def iomanager_stop (s : IOManager) (n : Nat) (eag : Nat → Nat) : IOManager :=
  stop_finish (Nat.iterate io_thread_stopped n (stop_phase s eag))

theorem iterate_io_thread_stopped_state (k : Nat) :
    ∀ s : IOManager, s.m_yet_to_stop_nthreads = (k : Int) → 0 < k →
      (Nat.iterate io_thread_stopped k s).m_state = iomgr_state.stopped := by
  induction k with
  | zero => intro s _ hk; exact absurd hk (by simp)
  | succ k ih =>
    intro s hs _
    rw [Function.iterate_succ_apply]
    by_cases hk : k = 0
    · subst hk
      have h1 : io_thread_stopped s =
          { s with m_yet_to_stop_nthreads := 0,
                   m_state := iomgr_state.stopped } := by
        unfold io_thread_stopped
        rw [hs]
        norm_num
      rw [h1]
      rfl
    · have h1 : io_thread_stopped s =
          { s with m_yet_to_stop_nthreads := (k : Int) } := by
        unfold io_thread_stopped
        rw [hs]
        rw [if_neg (by
          push_cast
          omega)]
        congr 1
        push_cast
        ring
      rw [h1]
      exact ih _ rfl (Nat.pos_of_ne_zero hk)

/-- C1: behavior of `stop()` (iomgr.cpp:50-85) for any number `n` of live
io threads, zero included (`n` is the value of the
`m_yet_to_stop_nthreads` latch, incremented once per started thread).
`stop()` first sets the state to `stopping` and pre-increments the latch
to `n + 1` before broadcasting; the broadcast appends a
RELINQUISH_IO_THREAD message (and one wakeup token) to every thread with a
message descriptor that is marked an io thread; the global timer is
nulled; the decrement-and-test then leaves the latch at `n` — if `n = 0`
the state is already `stopped` at that point, otherwise it is `stopping`
and the call blocks until the `n` thread exits flip it to `stopped`.  On
return the state is `stopped` and the interface and drive registries (and
the spawned-thread list) are empty. -/
theorem stop_spec (s : IOManager) (n : Nat) (eag : Nat → Nat)
    (h : s.m_yet_to_stop_nthreads = (n : Int)) :
    (stop_pre s).m_state = iomgr_state.stopping ∧
    (stop_pre s).m_yet_to_stop_nthreads = (n : Int) + 1 ∧
    (stop_phase s eag).m_global_timer = none ∧
    (stop_phase s eag).m_yet_to_stop_nthreads = (n : Int) ∧
    (n = 0 → (stop_phase s eag).m_state = iomgr_state.stopped) ∧
    (0 < n → (stop_phase s eag).m_state = iomgr_state.stopping) ∧
    (stop_phase s eag).m_threads.length = s.m_threads.length ∧
    (∀ j (hj : j < s.m_threads.length)
       (hj2 : j < (stop_phase s eag).m_threads.length),
       (eligible s.m_threads[j] = true →
         (stop_phase s eag).m_threads[j].m_msg_q =
           s.m_threads[j].m_msg_q ++ [relinquish_msg] ∧
         (stop_phase s eag).m_threads[j].m_tokens =
           s.m_threads[j].m_tokens + 1) ∧
       (eligible s.m_threads[j] = false →
         (stop_phase s eag).m_threads[j] = s.m_threads[j])) ∧
    (iomanager_stop s n eag).m_state = iomgr_state.stopped ∧
    (iomanager_stop s n eag).m_iface_list = [] ∧
    (iomanager_stop s n eag).m_drive_ifaces = [] ∧
    (iomanager_stop s n eag).m_iomgr_threads = [] := by
  have hyet : (stop_phase s eag).m_yet_to_stop_nthreads = (n : Int) := by
    unfold stop_phase
    rw [io_thread_stopped_yet]
    show (stop_pre s).m_yet_to_stop_nthreads - 1 = (n : Int)
    show s.m_yet_to_stop_nthreads + 1 - 1 = (n : Int)
    rw [h]
    ring
  have hthreads : (stop_phase s eag).m_threads =
      (bcast relinquish_msg eag s.m_threads 0).1 := by
    unfold stop_phase
    rw [io_thread_stopped_threads]
    rfl
  refine ⟨rfl, by show s.m_yet_to_stop_nthreads + 1 = (n : Int) + 1; rw [h],
    ?_, hyet, ?_, ?_, ?_, ?_, ?_, rfl, rfl, rfl⟩
  · unfold stop_phase
    rw [io_thread_stopped_timer]
  · intro hn
    unfold stop_phase
    unfold io_thread_stopped
    rw [if_pos (by
      show (stop_pre s).m_yet_to_stop_nthreads - 1 = 0
      show s.m_yet_to_stop_nthreads + 1 - 1 = 0
      rw [h, hn]
      norm_num)]
  · intro hn
    unfold stop_phase
    unfold io_thread_stopped
    rw [if_neg (by
      show ¬((stop_pre s).m_yet_to_stop_nthreads - 1 = 0)
      show ¬(s.m_yet_to_stop_nthreads + 1 - 1 = 0)
      rw [h]
      omega)]
    rfl
  · rw [hthreads]
    exact bcast_length relinquish_msg eag s.m_threads 0
  · intro j hj hj2
    have hj2' : j < (bcast relinquish_msg eag s.m_threads 0).1.length := by
      rw [bcast_length]; exact hj
    have e : (stop_phase s eag).m_threads[j] =
        if eligible s.m_threads[j] then
          deliver (eag (0 + j)) relinquish_msg s.m_threads[j]
        else s.m_threads[j] := by
      simp only [hthreads]
      exact bcast_getElem relinquish_msg eag s.m_threads 0 j hj hj2'
    constructor
    · intro helig
      rw [e, if_pos helig]
      exact ⟨rfl, by simp [deliver, eventfd_write_retry_adds_one]⟩
    · intro helig
      rw [e, if_neg (by simp [helig])]
  · by_cases hn : n = 0
    · subst hn
      show (Nat.iterate io_thread_stopped 0 (stop_phase s eag)).m_state =
        iomgr_state.stopped
      show (stop_phase s eag).m_state = iomgr_state.stopped
      unfold stop_phase
      unfold io_thread_stopped
      rw [if_pos (by
        show (stop_pre s).m_yet_to_stop_nthreads - 1 = 0
        show s.m_yet_to_stop_nthreads + 1 - 1 = 0
        rw [h]
        norm_num)]
    · show (Nat.iterate io_thread_stopped n (stop_phase s eag)).m_state =
        iomgr_state.stopped
      exact iterate_io_thread_stopped_state n (stop_phase s eag) hyet
        (Nat.pos_of_ne_zero hn)

/-- Witness for C1 on the one-io-thread sample manager with latch value 1:
the pre-increment, the broadcast delivery, and the `stopped` postcondition
with cleared registries. -/
theorem stop_spec_witness :
    (stop_pre { sampleMgr2 with m_yet_to_stop_nthreads := 1 }).m_state =
      iomgr_state.stopping ∧
    (iomanager_stop { sampleMgr2 with m_yet_to_stop_nthreads := 1 } 1
        eag0).m_state = iomgr_state.stopped ∧
    (iomanager_stop { sampleMgr2 with m_yet_to_stop_nthreads := 1 } 1
        eag0).m_iface_list = [] ∧
    (iomanager_stop { sampleMgr2 with m_yet_to_stop_nthreads := 1 } 1
        eag0).m_drive_ifaces = [] := by
  have h := stop_spec { sampleMgr2 with m_yet_to_stop_nthreads := 1 } 1 eag0
    (by norm_num)
  exact ⟨h.1, h.2.2.2.2.2.2.2.2.1, h.2.2.2.2.2.2.2.2.2.1,
    h.2.2.2.2.2.2.2.2.2.2.1⟩

/-- `#define MAX_OUTSTANDING_IO 200` (aio_drive_interface.hpp:25). -/
def MAX_OUTSTANDING_IO : Nat := 200

/-- The per-thread drive submission context (`struct aio_thread_context`,
aio_drive_interface.hpp:58-75), reduced to the control-block accounting:
`free_list` is the `iocb_list` stack of pre-allocated control blocks
(identified by opaque numbers), `in_flight` the blocks currently submitted
to the kernel identity handle, plus the two forced-sync counters of
`AioDriveInterfaceMetrics` (aio_drive_interface.hpp:87-88). -/
structure aio_thread_context where
  free_list : List Nat
  in_flight : List Nat
  force_sync_io_empty_iocb : Nat
  force_sync_io_eagain_error : Nat
deriving DecidableEq, Repr

/-- How a submission attempt was resolved. -/
inductive SubmitResult
  | submitted
  | sync_fallback_empty
  | sync_fallback_eagain
  | error_completion
deriving DecidableEq, Repr

/-- Outcome of a kernel `io_submit` call. -/
inductive KernelOutcome
  | ok
  | eagain
  | err
deriving DecidableEq, Repr

/-- Modelled from the spec: `AioDriveInterface::on_io_thread_start`
(aio_drive_interface.cpp, not part of `src/`) "allocates and seeds the
free stack with MAX_OUTSTANDING_IO control blocks". -/
def aio_ctx_init : aio_thread_context :=
  { free_list := List.range MAX_OUTSTANDING_IO
    in_flight := []
    force_sync_io_empty_iocb := 0
    force_sync_io_eagain_error := 0 }

/-- Modelled from the spec: the submission path of
`AioDriveInterface::async_write`/`async_read` (aio_drive_interface.cpp,
not part of `src/`): "pop a control block from the free stack ... submit
to the kernel.  On submission failure: -EAGAIN: return the control block
to the stack, bump force_sync_io_eagain_error, and perform the operation
synchronously ...  Empty free stack at entry: same synchronous fallback,
bumping force_sync_io_empty_iocb.  Other failures: bump the per-direction
submission error counter and synthesize an error completion" (the control
block returns to the stack, as forced by the accounting invariant). -/
def aio_submit (c : aio_thread_context) (o : KernelOutcome) :
    aio_thread_context × SubmitResult :=
  match c.free_list with
  | [] =>
    ({ c with force_sync_io_empty_iocb := c.force_sync_io_empty_iocb + 1 },
      SubmitResult.sync_fallback_empty)
  | iocb :: rest =>
    match o with
    | KernelOutcome.ok =>
      ({ c with free_list := rest, in_flight := iocb :: c.in_flight },
        SubmitResult.submitted)
    | KernelOutcome.eagain =>
      ({ c with
          force_sync_io_eagain_error := c.force_sync_io_eagain_error + 1 },
        SubmitResult.sync_fallback_eagain)
    | KernelOutcome.err => (c, SubmitResult.error_completion)

/-- Modelled from the spec: `AioDriveInterface::process_completions`
(aio_drive_interface.cpp, not part of `src/`): "harvest up to
MAX_COMPLETIONS events ... For each event: recover the control block, push
it back onto the free stack". -/
def aio_complete (c : aio_thread_context) (k : Nat) : aio_thread_context :=
  { c with free_list := c.in_flight.take k ++ c.free_list
           in_flight := c.in_flight.drop k }

/-- One interaction with a per-thread drive context: an asynchronous
submission (with the kernel's outcome) or a completion harvest of `k`
events. -/
inductive AioOp
  | submit (o : KernelOutcome)
  | complete (k : Nat)
deriving DecidableEq, Repr

def aio_step (c : aio_thread_context) : AioOp → aio_thread_context
  | AioOp.submit o => (aio_submit c o).1
  | AioOp.complete k => aio_complete c k

/-- The context reached from thread start after a sequence of
submissions and completion harvests. -/
def aio_run (ops : List AioOp) : aio_thread_context :=
  ops.foldl aio_step aio_ctx_init

theorem aio_step_sum (c : aio_thread_context) (op : AioOp) :
    (aio_step c op).free_list.length + (aio_step c op).in_flight.length =
      c.free_list.length + c.in_flight.length := by
  cases op with
  | submit o =>
    show (aio_submit c o).1.free_list.length +
      (aio_submit c o).1.in_flight.length = _
    cases hf : c.free_list with
    | nil => simp [aio_submit, hf]
    | cons iocb rest =>
      cases o with
      | ok => simp [aio_submit, hf]; omega
      | eagain => simp [aio_submit, hf]
      | err => simp [aio_submit, hf]
  | complete k =>
    show (aio_complete c k).free_list.length +
      (aio_complete c k).in_flight.length = _
    simp [aio_complete]
    omega

theorem aio_foldl_sum :
    ∀ (ops : List AioOp) (c : aio_thread_context),
      (ops.foldl aio_step c).free_list.length +
          (ops.foldl aio_step c).in_flight.length =
        c.free_list.length + c.in_flight.length := by
  intro ops
  induction ops with
  | nil => intro c; rfl
  | cons op rest ih =>
    intro c
    rw [List.foldl_cons, ih (aio_step c op), aio_step_sum]

/-- C7: the per-thread drive submission pool.  The free stack starts with
exactly MAX_OUTSTANDING_IO pre-allocated control blocks; after any
sequence of submissions and completion harvests, the number of blocks on
the free stack plus the number in flight with the kernel equals
MAX_OUTSTANDING_IO (so at most MAX_OUTSTANDING_IO submissions are ever
outstanding); and a submission attempted with an empty free stack resolves
as a synchronous-I/O fallback, leaving the pool exactly as it was — it is
never grown. -/
theorem aio_pool_invariant (ops : List AioOp) (c : aio_thread_context)
    (o : KernelOutcome) :
    aio_ctx_init.free_list.length = MAX_OUTSTANDING_IO ∧
    aio_ctx_init.in_flight = [] ∧
    (aio_run ops).free_list.length + (aio_run ops).in_flight.length =
      MAX_OUTSTANDING_IO ∧
    (aio_run ops).in_flight.length ≤ MAX_OUTSTANDING_IO ∧
    (aio_submit { c with free_list := [] } o).2 =
      SubmitResult.sync_fallback_empty ∧
    (aio_submit { c with free_list := [] } o).1.free_list = [] ∧
    (aio_submit { c with free_list := [] } o).1.in_flight = c.in_flight := by
  have hsum : (aio_run ops).free_list.length +
      (aio_run ops).in_flight.length = MAX_OUTSTANDING_IO := by
    unfold aio_run
    rw [aio_foldl_sum]
    simp [aio_ctx_init]
  refine ⟨by simp [aio_ctx_init], rfl, hsum, by omega, rfl, rfl, rfl⟩

/-- `IOManager::add_interface` (iomgr.cpp:93-117): append to the
interface registry; when the registry size equals the expected count,
either transition to `waiting_for_threads` and spawn
`m_yet_to_start_nthreads` reactor threads with `is_iomgr_thread = true`
(when that counter is nonzero, `if (nthreads)`), or transition directly to
`running`. -/
def add_interface (s : IOManager) (iface : Nat) : IOManager :=
  let l := s.m_iface_list ++ [iface]
  if l.length = s.m_expected_ifaces then
    if s.m_yet_to_start_nthreads ≠ 0 then
      { s with m_iface_list := l,
               m_state := iomgr_state.waiting_for_threads,
               m_iomgr_threads := s.m_iomgr_threads ++
                 List.replicate s.m_yet_to_start_nthreads.toNat true }
    else
      { s with m_iface_list := l, m_state := iomgr_state.running }
  else
    { s with m_iface_list := l }

/-- `IOManager::io_thread_started` (iomgr.cpp:126-129): increment the stop
latch; when the thread is a manager-spawned one, decrement-and-test the
start latch and transition to `running` on reaching zero. -/
def io_thread_started (s : IOManager) (is_iomgr_thread : Bool) : IOManager :=
  match is_iomgr_thread with
  | false => { s with m_yet_to_stop_nthreads := s.m_yet_to_stop_nthreads + 1 }
  | true =>
    if s.m_yet_to_start_nthreads - 1 = 0 then
      { s with m_yet_to_stop_nthreads := s.m_yet_to_stop_nthreads + 1,
               m_yet_to_start_nthreads := s.m_yet_to_start_nthreads - 1,
               m_state := iomgr_state.running }
    else
      { s with m_yet_to_stop_nthreads := s.m_yet_to_stop_nthreads + 1,
               m_yet_to_start_nthreads := s.m_yet_to_start_nthreads - 1 }

/-- The manager before `start()`.  Modelled from the spec: the field
initializers live in `iomgr.hpp` (not part of `src/`); counters start at
zero, registries empty, and the expected-interface count at
`inbuilt_interface_count` (the value `stop()` resets it to,
iomgr.cpp:81). -/
def initialMgr : IOManager :=
  { m_state := iomgr_state.stopped
    m_expected_ifaces := inbuilt_interface_count
    m_yet_to_start_nthreads := 0
    m_yet_to_stop_nthreads := 0
    m_iface_list := []
    m_drive_ifaces := []
    m_fd_info_map := []
    m_threads := []
    m_iomgr_threads := []
    m_global_timer := none }

/-- `IOManager::start` (iomgr.cpp:34-48): accumulate the expected
interface count, set the start latch to `num_threads`, transition to
`waiting_for_interfaces`, and register the in-built default interface
(identity 0). -/
def iomanager_start (s : IOManager) (expected_custom_ifaces : Nat)
    (num_threads : Nat) : IOManager :=
  add_interface
    { s with
        m_expected_ifaces := s.m_expected_ifaces + expected_custom_ifaces,
        m_yet_to_start_nthreads := (num_threads : Int),
        m_state := iomgr_state.waiting_for_interfaces }
    0

/-- The manager-state-affecting operations of `iomgr.cpp`, as atomic trace
steps: interface registration, a thread entering or leaving the io loop,
the body of `stop()` up to its decrement-and-test (`stopBegin`, after
which the caller may block), and the post-wait tail of `stop()`
(`stopEnd`). -/
inductive MgrOp
  | addInterface (iface : Nat)
  | ioThreadStarted (is_iomgr_thread : Bool)
  | ioThreadStopped
  | stopBegin (eag : Nat → Nat)
  | stopEnd

def applyOp (s : IOManager) : MgrOp → IOManager
  | MgrOp.addInterface i => add_interface s i
  | MgrOp.ioThreadStarted b => io_thread_started s b
  | MgrOp.ioThreadStopped => io_thread_stopped s
  | MgrOp.stopBegin eag => stop_phase s eag
  | MgrOp.stopEnd => stop_finish s

def isStopBegin : MgrOp → Bool
  | MgrOp.stopBegin _ => true
  | _ => false

def isStopEnd : MgrOp → Bool
  | MgrOp.stopEnd => true
  | _ => false

/-- The protocol discipline under which the no-regression property is
claimed: interfaces are only registered before `stop()` runs its tail;
manager-spawned threads report started only after the spawn (so not in
`waiting_for_interfaces`); threads relinquish only once `stop()` has asked
them to; `stop()` itself is invoked only while `running`; and its tail
runs only once the state reached `stopped`. -/
def allowedOp (s : IOManager) (sb se : Bool) : MgrOp → Prop
  | MgrOp.addInterface _ => se = false
  | MgrOp.ioThreadStarted b =>
      b = true → s.m_state ≠ iomgr_state.waiting_for_interfaces
  | MgrOp.ioThreadStopped => sb = true
  | MgrOp.stopBegin _ => s.m_state = iomgr_state.running
  | MgrOp.stopEnd => s.m_state = iomgr_state.stopped ∧ sb = true

/-- Well-formed traces: every step is allowed in the state it executes in;
`sb`/`se` record whether a `stopBegin`/`stopEnd` has occurred. -/
def WFaux (s : IOManager) (sb se : Bool) : List MgrOp → Prop
  | [] => True
  | op :: rest =>
    allowedOp s sb se op ∧
      WFaux (applyOp s op) (sb || isStopBegin op) (se || isStopEnd op) rest

/-- No step of the trace moves the state backwards along the
progression. -/
def NoRegress (s : IOManager) : List MgrOp → Prop
  | [] => True
  | op :: rest =>
    stateRank s.m_state ≤ stateRank (applyOp s op).m_state ∧
      NoRegress (applyOp s op) rest

/-- The inductive invariant carrying the no-regression proof:
(1) from `running` on, the start latch is exhausted; (2) before the stop
tail, any state past `waiting_for_interfaces` has at least the expected
number of interfaces registered; (3,4) once `stop()` began, the start
latch is exhausted and (before the tail) the registry is full. -/
def Inv (s : IOManager) (sb se : Bool) : Prop :=
  ((s.m_state = iomgr_state.running ∨ s.m_state = iomgr_state.stopping ∨
      s.m_state = iomgr_state.stopped) → s.m_yet_to_start_nthreads ≤ 0) ∧
  (se = false → s.m_state ≠ iomgr_state.waiting_for_interfaces →
    s.m_expected_ifaces ≤ s.m_iface_list.length) ∧
  (sb = true → s.m_yet_to_start_nthreads ≤ 0) ∧
  (sb = true → se = false → s.m_expected_ifaces ≤ s.m_iface_list.length)

theorem add_interface_eq_wft (s : IOManager) (i : Nat)
    (hlen : (s.m_iface_list ++ [i]).length = s.m_expected_ifaces)
    (hn : s.m_yet_to_start_nthreads ≠ 0) :
    add_interface s i =
      { s with m_iface_list := s.m_iface_list ++ [i],
               m_state := iomgr_state.waiting_for_threads,
               m_iomgr_threads := s.m_iomgr_threads ++
                 List.replicate s.m_yet_to_start_nthreads.toNat true } := by
  simp only [add_interface]
  rw [if_pos hlen, if_pos hn]

theorem add_interface_eq_running (s : IOManager) (i : Nat)
    (hlen : (s.m_iface_list ++ [i]).length = s.m_expected_ifaces)
    (hn : s.m_yet_to_start_nthreads = 0) :
    add_interface s i =
      { s with m_iface_list := s.m_iface_list ++ [i],
               m_state := iomgr_state.running } := by
  simp only [add_interface]
  rw [if_pos hlen, if_neg (fun hc => hc hn)]

theorem add_interface_eq_skip (s : IOManager) (i : Nat)
    (hlen : ¬((s.m_iface_list ++ [i]).length = s.m_expected_ifaces)) :
    add_interface s i = { s with m_iface_list := s.m_iface_list ++ [i] } := by
  simp only [add_interface]
  rw [if_neg hlen]

theorem io_thread_stopped_yet_start (s : IOManager) :
    (io_thread_stopped s).m_yet_to_start_nthreads =
      s.m_yet_to_start_nthreads := by
  unfold io_thread_stopped
  split <;> rfl

theorem io_thread_stopped_iface (s : IOManager) :
    (io_thread_stopped s).m_iface_list = s.m_iface_list := by
  unfold io_thread_stopped
  split <;> rfl

theorem io_thread_stopped_expected (s : IOManager) :
    (io_thread_stopped s).m_expected_ifaces = s.m_expected_ifaces := by
  unfold io_thread_stopped
  split <;> rfl

theorem io_thread_stopped_state_cases (s : IOManager) :
    (io_thread_stopped s).m_state = s.m_state ∨
      (io_thread_stopped s).m_state = iomgr_state.stopped := by
  unfold io_thread_stopped
  split
  · right; rfl
  · left; rfl

theorem stop_phase_yet_start (s : IOManager) (eag : Nat → Nat) :
    (stop_phase s eag).m_yet_to_start_nthreads =
      s.m_yet_to_start_nthreads := by
  unfold stop_phase
  rw [io_thread_stopped_yet_start]
  rfl

theorem stop_phase_iface (s : IOManager) (eag : Nat → Nat) :
    (stop_phase s eag).m_iface_list = s.m_iface_list := by
  unfold stop_phase
  rw [io_thread_stopped_iface]
  rfl

theorem stop_phase_expected (s : IOManager) (eag : Nat → Nat) :
    (stop_phase s eag).m_expected_ifaces = s.m_expected_ifaces := by
  unfold stop_phase
  rw [io_thread_stopped_expected]
  rfl

theorem stop_phase_state_cases (s : IOManager) (eag : Nat → Nat) :
    (stop_phase s eag).m_state = iomgr_state.stopping ∨
      (stop_phase s eag).m_state = iomgr_state.stopped := by
  unfold stop_phase
  rcases io_thread_stopped_state_cases
      { (send_msg (stop_pre s) (-1) relinquish_msg eag).1 with
          m_global_timer := none } with h | h
  · left; rw [h]; rfl
  · right; exact h

theorem stateRank_le_four (x : iomgr_state) : stateRank x ≤ 4 := by
  cases x <;> decide

/-- Every allowed step preserves the invariant and never lowers the state
rank. -/
theorem step_preserves (s : IOManager) (sb se : Bool) (op : MgrOp)
    (hInv : Inv s sb se) (hAll : allowedOp s sb se op) :
    stateRank s.m_state ≤ stateRank (applyOp s op).m_state ∧
      Inv (applyOp s op) (sb || isStopBegin op) (se || isStopEnd op) := by
  obtain ⟨hA, hB, hD, hE⟩ := hInv
  cases op with
  | addInterface i =>
    simp only [applyOp, isStopBegin, isStopEnd, Bool.or_false]
    by_cases hlen : (s.m_iface_list ++ [i]).length = s.m_expected_ifaces
    · have hwfi : s.m_state = iomgr_state.waiting_for_interfaces := by
        by_contra hne
        have hle := hB hAll hne
        simp only [List.length_append, List.length_cons,
          List.length_nil] at hlen
        omega
      by_cases hn : s.m_yet_to_start_nthreads ≠ 0
      · rw [add_interface_eq_wft s i hlen hn]
        refine ⟨by rw [hwfi]; simp only []; decide, ?_, ?_, hD,
          fun _ _ => le_of_eq hlen.symm⟩
        · intro hst
          rcases hst with h | h | h <;> simp at h
        · intro _ _
          exact le_of_eq hlen.symm
      · have hz : s.m_yet_to_start_nthreads = 0 := not_not.mp hn
        rw [add_interface_eq_running s i hlen hz]
        refine ⟨by rw [hwfi]; simp only []; decide, fun _ => le_of_eq hz, ?_,
          hD, fun _ _ => le_of_eq hlen.symm⟩
        intro _ _
        exact le_of_eq hlen.symm
    · rw [add_interface_eq_skip s i hlen]
      refine ⟨Nat.le_refl _, hA, ?_, hD, ?_⟩
      · intro hse hne
        calc s.m_expected_ifaces ≤ s.m_iface_list.length := hB hse hne
          _ ≤ (s.m_iface_list ++ [i]).length := by simp
      · intro h1 h2
        calc s.m_expected_ifaces ≤ s.m_iface_list.length := hE h1 h2
          _ ≤ (s.m_iface_list ++ [i]).length := by simp
  | ioThreadStarted b =>
    cases b with
    | false =>
      simp only [applyOp, isStopBegin, isStopEnd, Bool.or_false]
      exact ⟨Nat.le_refl _, hA, hB, hD, hE⟩
    | true =>
      have hne := hAll rfl
      simp only [applyOp, isStopBegin, isStopEnd, Bool.or_false]
      by_cases hz : s.m_yet_to_start_nthreads - 1 = 0
      · have heq : io_thread_started s true =
            { s with m_yet_to_stop_nthreads := s.m_yet_to_stop_nthreads + 1,
                     m_yet_to_start_nthreads :=
                       s.m_yet_to_start_nthreads - 1,
                     m_state := iomgr_state.running } := by
          unfold io_thread_started
          rw [if_pos hz]
        have hy1 : s.m_yet_to_start_nthreads = 1 := by omega
        rw [heq]
        constructor
        · cases hst : s.m_state with
          | waiting_for_interfaces => exact absurd hst hne
          | waiting_for_threads => simp only []; decide
          | running => simp only []; decide
          | stopping =>
            have := hA (Or.inr (Or.inl hst))
            omega
          | stopped =>
            have := hA (Or.inr (Or.inr hst))
            omega
        · refine ⟨fun _ => by simp only []; omega, ?_,
            fun _ => by simp only []; omega, hE⟩
          intro hse _
          refine hB hse ?_
          intro hwfi
          exact hne hwfi
      · have heq : io_thread_started s true =
            { s with m_yet_to_stop_nthreads := s.m_yet_to_stop_nthreads + 1,
                     m_yet_to_start_nthreads :=
                       s.m_yet_to_start_nthreads - 1 } := by
          unfold io_thread_started
          rw [if_neg hz]
        rw [heq]
        refine ⟨Nat.le_refl _, ?_, hB, ?_, hE⟩
        · intro h
          have := hA h
          simp only []
          omega
        · intro h
          have := hD h
          simp only []
          omega
  | ioThreadStopped =>
    simp only [applyOp, isStopBegin, isStopEnd, Bool.or_false]
    constructor
    · rcases io_thread_stopped_state_cases s with hst | hst
      · rw [hst]
      · rw [hst]
        exact stateRank_le_four _
    · refine ⟨fun _ => ?_, fun hse _ => ?_, fun _ => ?_, fun _ hse => ?_⟩
      · rw [io_thread_stopped_yet_start]
        exact hD hAll
      · rw [io_thread_stopped_iface, io_thread_stopped_expected]
        exact hE hAll hse
      · rw [io_thread_stopped_yet_start]
        exact hD hAll
      · rw [io_thread_stopped_iface, io_thread_stopped_expected]
        exact hE hAll hse
  | stopBegin eag =>
    simp only [applyOp, isStopBegin, isStopEnd, Bool.or_true, Bool.or_false]
    have hrun : s.m_state ≠ iomgr_state.waiting_for_interfaces := by
      rw [hAll]
      decide
    constructor
    · rcases stop_phase_state_cases s eag with h | h <;>
        rw [h, hAll] <;> decide
    · refine ⟨fun _ => ?_, fun hse _ => ?_, fun _ => ?_, fun _ hse => ?_⟩
      · rw [stop_phase_yet_start]
        exact hA (Or.inl hAll)
      · rw [stop_phase_iface, stop_phase_expected]
        exact hB hse hrun
      · rw [stop_phase_yet_start]
        exact hA (Or.inl hAll)
      · rw [stop_phase_iface, stop_phase_expected]
        exact hB hse hrun
  | stopEnd =>
    simp only [applyOp, isStopBegin, isStopEnd, Bool.or_true, Bool.or_false]
    refine ⟨Nat.le_refl _, fun _ => ?_, fun hse => ?_, fun _ => ?_,
      fun _ hse => ?_⟩
    · show (0 : Int) ≤ 0
      exact le_refl 0
    · exact Bool.noConfusion hse
    · show (0 : Int) ≤ 0
      exact le_refl 0
    · exact Bool.noConfusion hse

theorem wfaux_noregress :
    ∀ (ops : List MgrOp) (s : IOManager) (sb se : Bool),
      Inv s sb se → WFaux s sb se ops → NoRegress s ops := by
  intro ops
  induction ops with
  | nil => intro s sb se _ _; trivial
  | cons op rest ih =>
    intro s sb se hInv hWF
    obtain ⟨hAll, hWF'⟩ := hWF
    obtain ⟨hrank, hInv'⟩ := step_preserves s sb se op hInv hAll
    exact ⟨hrank, ih _ _ _ hInv' hWF'⟩

theorem inv_after_first_add (t : IOManager) (i : Nat)
    (hstate : t.m_state = iomgr_state.waiting_for_interfaces) :
    Inv (add_interface t i) false false := by
  by_cases hlen : (t.m_iface_list ++ [i]).length = t.m_expected_ifaces
  · by_cases hn : t.m_yet_to_start_nthreads ≠ 0
    · rw [add_interface_eq_wft t i hlen hn]
      refine ⟨fun hst => ?_, fun _ _ => le_of_eq hlen.symm,
        fun h => Bool.noConfusion h, fun h => Bool.noConfusion h⟩
      rcases hst with h | h | h <;> simp at h
    · have hz := not_not.mp hn
      rw [add_interface_eq_running t i hlen hz]
      exact ⟨fun _ => le_of_eq hz, fun _ _ => le_of_eq hlen.symm,
        fun h => Bool.noConfusion h, fun h => Bool.noConfusion h⟩
  · rw [add_interface_eq_skip t i hlen]
    refine ⟨fun hst => ?_, fun _ hne => ?_, fun h => Bool.noConfusion h,
      fun h => Bool.noConfusion h⟩
    · rcases hst with h | h | h <;>
        · simp only [] at h
          rw [hstate] at h
          simp at h
    · simp only [] at hne
      exact absurd hstate hne

theorem start_inv (e n : Nat) :
    Inv (iomanager_start initialMgr e n) false false :=
  inv_after_first_add _ 0 rfl

/-- C2 counterexample: the claim states no sequence of operations ever
moves the state backwards along the progression, but the code permits a
regression: after `start(0, 1)` (state `waiting_for_threads`, one thread
spawned but not yet started), calling `stop()` runs to completion —
nothing is eligible for the broadcast and the pre-incremented latch
drops straight to zero — leaving state `stopped`; when the spawned thread
then reports `io_thread_started(true)`, the start latch hits zero and
`set_state_and_notify(running)` moves the state backwards from `stopped`
to `running` (iomgr.cpp:128). -/
theorem state_regression_counterexample :
    (applyOp (iomanager_start initialMgr 0 1)
        (MgrOp.stopBegin eag0)).m_state = iomgr_state.stopped ∧
    (applyOp (applyOp (iomanager_start initialMgr 0 1)
        (MgrOp.stopBegin eag0))
        (MgrOp.ioThreadStarted true)).m_state = iomgr_state.running ∧
    stateRank iomgr_state.running < stateRank iomgr_state.stopped := by
  refine ⟨rfl, rfl, by decide⟩

/-- C2 amended: `add_interface` appends to the interface registry; exactly
when the registry size becomes equal to the expected count, the state is
set — to `waiting_for_threads`, spawning one `is_iomgr_thread = true`
reactor thread per unit of the recorded (nonnegative) thread count, when
that count is positive, and directly to `running` when it is zero; a
registration that does not hit the expected count exactly (in particular
one pushing past it) changes neither the state nor the spawned threads.
Along every trace from `start()` that follows the protocol discipline
(`allowedOp`: `stop()` invoked only while `running`, threads relinquish
only after `stop()` began, manager threads report started only after
spawn, no registrations after `stop()`'s tail) the state never moves
backwards along `waiting_for_interfaces → waiting_for_threads → running →
stopping → stopped`; without that discipline the code admits regressions
(see the counterexample). -/
theorem add_interface_spec :
    (∀ (s : IOManager) (i : Nat),
      (add_interface s i).m_iface_list = s.m_iface_list ++ [i]) ∧
    (∀ (s : IOManager) (i : Nat),
      (s.m_iface_list ++ [i]).length = s.m_expected_ifaces →
      (s.m_yet_to_start_nthreads ≠ 0 →
        (add_interface s i).m_state = iomgr_state.waiting_for_threads ∧
        (add_interface s i).m_iomgr_threads = s.m_iomgr_threads ++
          List.replicate s.m_yet_to_start_nthreads.toNat true) ∧
      (s.m_yet_to_start_nthreads = 0 →
        (add_interface s i).m_state = iomgr_state.running ∧
        (add_interface s i).m_iomgr_threads = s.m_iomgr_threads)) ∧
    (∀ (s : IOManager) (i : Nat),
      (s.m_iface_list ++ [i]).length ≠ s.m_expected_ifaces →
      (add_interface s i).m_state = s.m_state ∧
      (add_interface s i).m_iomgr_threads = s.m_iomgr_threads) ∧
    (∀ (e n : Nat) (ops : List MgrOp),
      WFaux (iomanager_start initialMgr e n) false false ops →
      NoRegress (iomanager_start initialMgr e n) ops) := by
  refine ⟨?_, ?_, ?_, ?_⟩
  · intro s i
    by_cases hlen : (s.m_iface_list ++ [i]).length = s.m_expected_ifaces
    · by_cases hn : s.m_yet_to_start_nthreads ≠ 0
      · rw [add_interface_eq_wft s i hlen hn]
      · rw [add_interface_eq_running s i hlen (not_not.mp hn)]
    · rw [add_interface_eq_skip s i hlen]
  · intro s i hlen
    constructor
    · intro hn
      rw [add_interface_eq_wft s i hlen hn]
      exact ⟨rfl, rfl⟩
    · intro hz
      rw [add_interface_eq_running s i hlen hz]
      exact ⟨rfl, rfl⟩
  · intro s i hlen
    rw [add_interface_eq_skip s i hlen]
    exact ⟨rfl, rfl⟩
  · intro e n ops hWF
    exact wfaux_noregress ops _ false false (start_inv e n) hWF

/-- Witness for the amended C2: a concrete registration on the sample
manager, the exact-count transition on a fresh start, and a no-regression
run of a complete well-formed lifecycle trace (start one thread, thread
starts, stop, thread relinquishes, stop's tail). -/
theorem add_interface_spec_witness :
    (add_interface sampleMgr2 7).m_iface_list =
      sampleMgr2.m_iface_list ++ [7] ∧
    NoRegress (iomanager_start initialMgr 0 1)
      [MgrOp.ioThreadStarted true, MgrOp.stopBegin eag0,
       MgrOp.ioThreadStopped, MgrOp.stopEnd] := by
  refine ⟨add_interface_spec.1 sampleMgr2 7,
    add_interface_spec.2.2.2 0 1
      [MgrOp.ioThreadStarted true, MgrOp.stopBegin eag0,
       MgrOp.ioThreadStopped, MgrOp.stopEnd] ?_⟩
  refine ⟨?_, ?_, ?_, ?_, trivial⟩
  · intro _
    decide
  · rfl
  · rfl
  · exact ⟨rfl, rfl⟩

theorem updateAt_mem {α : Type} {a : α} :
    ∀ (l : List α) (n : Nat) (f : α → α),
      a ∈ updateAt l n f → ∃ c ∈ l, a = f c ∨ a = c := by
  intro l
  induction l with
  | nil => intro n f h; simp [updateAt] at h
  | cons x xs ih =>
    intro n f h
    cases n with
    | zero =>
      rcases List.mem_cons.mp h with h | h
      · exact ⟨x, List.mem_cons_self _ _, Or.inl h⟩
      · exact ⟨a, List.mem_cons_of_mem _ h, Or.inr rfl⟩
    | succ n =>
      rcases List.mem_cons.mp h with h | h
      · exact ⟨x, List.mem_cons_self _ _, Or.inr h⟩
      · obtain ⟨c, hc, hor⟩ := ih n f h
        exact ⟨c, List.mem_cons_of_mem _ hc, hor⟩

theorem mem_mapInsert {p : Int × fd_info} (m : List (Int × fd_info))
    (k : Int) (v : fd_info) (h : p ∈ mapInsert m k v) :
    p ∈ m ∨ p = (k, v) := by
  unfold mapInsert at h
  split at h
  · exact Or.inl h
  · rcases List.mem_append.mp h with h | h
    · exact Or.inl h
    · exact Or.inr (by simpa using h)

theorem mapInsert_find_preserved (m : List (Int × fd_info)) (k0 : Int)
    (v : fd_info) (k : Int) (i i' : fd_info)
    (h : mapFind m k = some i)
    (h' : mapFind (mapInsert m k0 v) k = some i') : i' = i := by
  unfold mapInsert at h'
  split at h'
  · rw [h] at h'
    exact (Option.some_inj.mp h').symm
  · rw [mapFind_append, h] at h'
    exact (Option.some_inj.mp h').symm

theorem mapErase_find_preserved (m : List (Int × fd_info)) (k0 : Int)
    (k : Int) (i i' : fd_info) (h : mapFind m k = some i)
    (h' : mapFind (mapErase m k0) k = some i') : i' = i := by
  by_cases hk : k = k0
  · subst hk
    rw [mapFind_mapErase] at h'
    exact Option.noConfusion h'
  · rw [mapFind_mapErase_ne m k0 k hk, h] at h'
    exact (Option.some_inj.mp h').symm

theorem deliver_fds (e : Nat) (msg : iomgr_msg) (c : ioMgrThreadContext) :
    (deliver e msg c).m_fds = c.m_fds ∧
      (deliver e msg c).m_msg_fd_info = c.m_msg_fd_info :=
  ⟨rfl, rfl⟩

theorem bcast_mem {c' : ioMgrThreadContext} (msg : iomgr_msg)
    (eag : Nat → Nat) :
    ∀ (l : List ioMgrThreadContext) (i : Nat),
      c' ∈ (bcast msg eag l i).1 →
      ∃ c ∈ l, c'.m_fds = c.m_fds ∧ c'.m_msg_fd_info = c.m_msg_fd_info := by
  intro l
  induction l with
  | nil => intro i h; simp [bcast] at h
  | cons c cs ih =>
    intro i h
    by_cases hc : eligible c = true
    · rw [show (bcast msg eag (c :: cs) i).1 =
          deliver (eag i) msg c :: (bcast msg eag cs (i + 1)).1 from by
            simp [bcast, hc]] at h
      rcases List.mem_cons.mp h with h | h
      · exact ⟨c, List.mem_cons_self _ _, by rw [h]; exact ⟨rfl, rfl⟩⟩
      · obtain ⟨d, hd, he⟩ := ih (i + 1) h
        exact ⟨d, List.mem_cons_of_mem _ hd, he⟩
    · rw [show (bcast msg eag (c :: cs) i).1 =
          c :: (bcast msg eag cs (i + 1)).1 from by simp [bcast, hc]] at h
      rcases List.mem_cons.mp h with h | h
      · exact ⟨c, List.mem_cons_self _ _, by rw [h]; exact ⟨rfl, rfl⟩⟩
      · obtain ⟨d, hd, he⟩ := ih (i + 1) h
        exact ⟨d, List.mem_cons_of_mem _ hd, he⟩

theorem targeted_mem {c' : ioMgrThreadContext} (tnum : Int)
    (msg : iomgr_msg) (eag : Nat → Nat) :
    ∀ l : List ioMgrThreadContext,
      c' ∈ (targeted tnum msg eag l).1 →
      ∃ c ∈ l, c'.m_fds = c.m_fds ∧ c'.m_msg_fd_info = c.m_msg_fd_info := by
  intro l
  induction l with
  | nil => intro h; simp [targeted] at h
  | cons c cs ih =>
    intro h
    by_cases hm : c.m_thread_num = tnum
    · by_cases hc : eligible c = true
      · rw [show (targeted tnum msg eag (c :: cs)).1 =
            deliver (eag 0) msg c :: cs from by simp [targeted, hm, hc]] at h
        rcases List.mem_cons.mp h with h | h
        · exact ⟨c, List.mem_cons_self _ _, by rw [h]; exact ⟨rfl, rfl⟩⟩
        · exact ⟨c', List.mem_cons_of_mem _ h, rfl, rfl⟩
      · rw [show (targeted tnum msg eag (c :: cs)).1 = c :: cs from by
            simp [targeted, hm, hc]] at h
        exact ⟨c', h, rfl, rfl⟩
    · rw [show (targeted tnum msg eag (c :: cs)).1 =
          c :: (targeted tnum msg eag cs).1 from by simp [targeted, hm]] at h
      rcases List.mem_cons.mp h with h | h
      · exact ⟨c, List.mem_cons_self _ _, by rw [h]; exact ⟨rfl, rfl⟩⟩
      · obtain ⟨d, hd, he⟩ := ih h
        exact ⟨d, List.mem_cons_of_mem _ hd, he⟩

theorem send_msg_map (s : IOManager) (t : Int) (msg : iomgr_msg)
    (eag : Nat → Nat) :
    (send_msg s t msg eag).1.m_fd_info_map = s.m_fd_info_map := by
  unfold send_msg
  split <;> rfl

theorem send_msg_mem {c' : ioMgrThreadContext} (s : IOManager) (t : Int)
    (msg : iomgr_msg) (eag : Nat → Nat)
    (h : c' ∈ (send_msg s t msg eag).1.m_threads) :
    ∃ c ∈ s.m_threads,
      c'.m_fds = c.m_fds ∧ c'.m_msg_fd_info = c.m_msg_fd_info := by
  unfold send_msg at h
  by_cases ht : t = -1
  · rw [if_pos ht] at h
    exact bcast_mem msg eag s.m_threads 0 h
  · rw [if_neg ht] at h
    exact targeted_mem t msg eag s.m_threads h

/-- The operations of `iomgr.cpp` that handle descriptor records after
creation: registration, removal, and message passing (which carries record
pointers in messages). -/
inductive FdOp
  | addFd (callerIdx : Nat) (iface : Nat) (fd : Int) (cb : Nat) (ev : Int)
      (pri : Int) (cookie : Nat) (is_per_thread_fd : Bool)
  | removeFd (info : fd_info) (iomgr_ctx : Option Nat) (callerIdx : Nat)
  | sendMsg (thread_num : Int) (msg : iomgr_msg) (eag : Nat → Nat)

def applyFdOp (s : IOManager) : FdOp → IOManager
  | FdOp.addFd c i fd cb ev pri ck p => (_add_fd s c i fd cb ev pri ck p).1
  | FdOp.removeFd info ic c => remove_fd s info ic c
  | FdOp.sendMsg t m e => (send_msg s t m e).1

/-- The record freshly created by an operation: only `_add_fd` creates
one, with `is_global` fixed to the negation of `is_per_thread_fd` at
creation (iomgr.cpp:148-149). -/
def newRecord : FdOp → Option fd_info
  | FdOp.addFd _ i fd cb ev pri ck p =>
      some { create_fd_info i fd cb ev pri ck with is_global := !p }
  | _ => none

/-- A record is held by the manager: as a value of the global descriptor
map, attached to some thread's multiplexer set, or installed as some
thread's message descriptor. -/
def recordIn (s : IOManager) (r : fd_info) : Prop :=
  (∃ p ∈ s.m_fd_info_map, p.2 = r) ∨
    (∃ ctx ∈ s.m_threads, r ∈ ctx.m_fds ∨ ctx.m_msg_fd_info = some r)

theorem addFd_ctx_elem (ctx : ioMgrThreadContext) (finfo r : fd_info)
    (h : r ∈ (if is_fd_addable ctx finfo then add_fd_to_thread ctx finfo
      else ctx).m_fds) :
    r ∈ ctx.m_fds ∨ r = finfo := by
  split at h
  · rcases List.mem_append.mp h with h | h
    · exact Or.inl h
    · exact Or.inr (by simpa using h)
  · exact Or.inl h

theorem addFd_ctx_msgfd (ctx : ioMgrThreadContext) (finfo : fd_info) :
    (if is_fd_addable ctx finfo then add_fd_to_thread ctx finfo
      else ctx).m_msg_fd_info = ctx.m_msg_fd_info := by
  split <;> rfl

theorem addFd_ctx_elem_global (ctx : ioMgrThreadContext) (finfo r : fd_info)
    (h : r ∈ (if ctx.m_is_io_thread && is_fd_addable ctx finfo then
      add_fd_to_thread ctx finfo else ctx).m_fds) :
    r ∈ ctx.m_fds ∨ r = finfo := by
  split at h
  · rcases List.mem_append.mp h with h | h
    · exact Or.inl h
    · exact Or.inr (by simpa using h)
  · exact Or.inl h

theorem addFd_ctx_msgfd_global (ctx : ioMgrThreadContext)
    (finfo : fd_info) :
    (if ctx.m_is_io_thread && is_fd_addable ctx finfo then
      add_fd_to_thread ctx finfo else ctx).m_msg_fd_info =
      ctx.m_msg_fd_info := by
  split <;> rfl

theorem removeFd_ctx_elem (ctx : ioMgrThreadContext) (info r : fd_info)
    (h : r ∈ (remove_fd_from_thread ctx info).m_fds) : r ∈ ctx.m_fds :=
  (List.mem_filter.mp h).1

/-- C8: `is_global` is immutable after record creation.  Across every
descriptor-handling operation (registration, removal, message passing):
(1) any record held by the manager afterwards was either already held
before, or is exactly the record the operation itself created (whose
`is_global` was fixed by the creating `_add_fd` to the negation of its
per-thread flag) — no operation rewrites a stored record; and (2) a fd
still mapped in the global descriptor map afterwards maps to a record with
the same `is_global` as before (`std::map::insert` never overwrites). -/
theorem fd_is_global_immutable (op : FdOp) (s : IOManager) :
    (∀ r : fd_info,
      recordIn (applyFdOp s op) r → recordIn s r ∨ newRecord op = some r) ∧
    (∀ (k : Int) (i i' : fd_info),
      mapFind s.m_fd_info_map k = some i →
      mapFind (applyFdOp s op).m_fd_info_map k = some i' →
      i'.is_global = i.is_global) := by
  cases op with
  | addFd cIdx iface fd cb ev pri ck p =>
    cases p with
    | true =>
      constructor
      · intro r hr
        rcases hr with ⟨q, hq, hqr⟩ | ⟨ctx, hctx, hin⟩
        · exact Or.inl (Or.inl ⟨q, hq, hqr⟩)
        · obtain ⟨c, hc, hor⟩ := updateAt_mem s.m_threads cIdx _ hctx
          rcases hor with hfc | hcc

          · rcases hin with hin | hin
            · rw [hfc] at hin
              rcases addFd_ctx_elem c _ r hin with hold | hnew
              · exact Or.inl (Or.inr ⟨c, hc, Or.inl hold⟩)
              · exact Or.inr (by rw [hnew]; rfl)
            · rw [hfc, addFd_ctx_msgfd] at hin
              exact Or.inl (Or.inr ⟨c, hc, Or.inr hin⟩)
          · rw [hcc] at hin
            exact Or.inl (Or.inr ⟨c, hc, hin⟩)
      · intro k i i' h h'
        have : i' = i := Option.some_inj.mp (by rw [← h]; exact h'.symm)
        rw [this]
    | false =>
      constructor
      · intro r hr
        rcases hr with ⟨q, hq, hqr⟩ | ⟨ctx, hctx, hin⟩
        · rcases mem_mapInsert s.m_fd_info_map fd _ hq with hold | hnew
          · exact Or.inl (Or.inl ⟨q, hold, hqr⟩)
          · refine Or.inr ?_
            rw [← hqr, hnew]
            rfl
        · obtain ⟨c, hc, hfc⟩ := List.mem_map.mp hctx
          rcases hin with hin | hin
          · rw [← hfc] at hin
            rcases addFd_ctx_elem_global c _ r hin with hold | hnew
            · exact Or.inl (Or.inr ⟨c, hc, Or.inl hold⟩)
            · exact Or.inr (by rw [hnew]; rfl)
          · rw [← hfc, addFd_ctx_msgfd_global] at hin
            exact Or.inl (Or.inr ⟨c, hc, Or.inr hin⟩)
      · intro k i i' h h'
        have : i' = i := mapInsert_find_preserved s.m_fd_info_map fd _ k i i'
          h h'
        rw [this]
  | removeFd info ic cIdx =>
    by_cases hbad : s.m_state ≠ iomgr_state.running ∧
        s.m_state ≠ iomgr_state.stopping
    · have heq : applyFdOp s (FdOp.removeFd info ic cIdx) = s :=
        remove_fd_noop s info ic cIdx hbad
      rw [heq]
      constructor
      · intro r hr
        exact Or.inl hr
      · intro k i i' h h'
        have : i' = i := Option.some_inj.mp (by rw [← h]; exact h'.symm)
        rw [this]
    · by_cases hg : info.is_global = true
      · have heq := remove_fd_global_eq s info ic cIdx hbad hg
        constructor
        · intro r hr
          rw [show applyFdOp s (FdOp.removeFd info ic cIdx) =
            remove_fd s info ic cIdx from rfl, heq] at hr
          rcases hr with ⟨q, hq, hqr⟩ | ⟨ctx, hctx, hin⟩
          · exact Or.inl (Or.inl ⟨q, (List.mem_filter.mp hq).1, hqr⟩)
          · obtain ⟨c, hc, hfc⟩ := List.mem_map.mp hctx
            refine Or.inl (Or.inr ⟨c, hc, ?_⟩)
            rcases hin with hin | hin
            · rw [← hfc] at hin
              left
              revert hin
              split
              · exact fun hin => removeFd_ctx_elem c info r hin
              · exact fun hin => hin
            · rw [← hfc] at hin
              right
              revert hin
              split
              · exact fun hin => hin
              · exact fun hin => hin
        · intro k i i' h h'
          rw [show applyFdOp s (FdOp.removeFd info ic cIdx) =
            remove_fd s info ic cIdx from rfl, heq] at h'
          have : i' = i :=
            mapErase_find_preserved s.m_fd_info_map info.fd k i i' h h'
          rw [this]
      · have heq := remove_fd_perthread_eq s info ic cIdx hbad
          (by simpa using hg)
        constructor
        · intro r hr
          rw [show applyFdOp s (FdOp.removeFd info ic cIdx) =
            remove_fd s info ic cIdx from rfl, heq] at hr
          rcases hr with ⟨q, hq, hqr⟩ | ⟨ctx, hctx, hin⟩
          · exact Or.inl (Or.inl ⟨q, hq, hqr⟩)
          · obtain ⟨c, hc, hor⟩ := updateAt_mem s.m_threads
              (ic.getD cIdx) _ hctx
            refine Or.inl (Or.inr ⟨c, hc, ?_⟩)
            rcases hor with hfc | hcc
            · rcases hin with hin | hin
              · rw [hfc] at hin
                exact Or.inl (removeFd_ctx_elem c info r hin)
              · rw [hfc] at hin
                exact Or.inr hin
            · rw [hcc] at hin
              exact hin
        · intro k i i' h h'
          rw [show applyFdOp s (FdOp.removeFd info ic cIdx) =
            remove_fd s info ic cIdx from rfl, heq] at h'
          have : i' = i := Option.some_inj.mp (by rw [← h]; exact h'.symm)
          rw [this]
  | sendMsg t m e =>
    constructor
    · intro r hr
      rcases hr with ⟨q, hq, hqr⟩ | ⟨ctx, hctx, hin⟩
      · rw [show (applyFdOp s (FdOp.sendMsg t m e)).m_fd_info_map =
          s.m_fd_info_map from send_msg_map s t m e] at hq
        exact Or.inl (Or.inl ⟨q, hq, hqr⟩)
      · obtain ⟨c, hc, hfds, hmsg⟩ := send_msg_mem s t m e hctx
        refine Or.inl (Or.inr ⟨c, hc, ?_⟩)
        rcases hin with hin | hin
        · exact Or.inl (hfds ▸ hin)
        · exact Or.inr (hmsg ▸ hin)
    · intro k i i' h h'
      rw [show (applyFdOp s (FdOp.sendMsg t m e)).m_fd_info_map =
        s.m_fd_info_map from send_msg_map s t m e] at h'
      have : i' = i := Option.some_inj.mp (by rw [← h]; exact h'.symm)
      rw [this]

/-- Witness for C8: a per-thread registration of fd 7 on the sample
manager; the record found at key 3 keeps its `is_global` across it. -/
theorem fd_is_global_immutable_witness :
    (∀ r : fd_info,
      recordIn (applyFdOp sampleMgr2 (FdOp.addFd 0 0 7 0 0 9 0 true)) r →
      recordIn sampleMgr2 r ∨
        newRecord (FdOp.addFd 0 0 7 0 0 9 0 true) = some r) ∧
    (∀ i i' : fd_info,
      mapFind sampleMgr2.m_fd_info_map 3 = some i →
      mapFind (applyFdOp sampleMgr2
        (FdOp.addFd 0 0 7 0 0 9 0 true)).m_fd_info_map 3 = some i' →
      i'.is_global = i.is_global) := by
  have h := fd_is_global_immutable (FdOp.addFd 0 0 7 0 0 9 0 true) sampleMgr2
  exact ⟨h.1, fun i i' => h.2 3 i i'⟩

end iomgr
